import Mathlib

/-!
Verification of the simulation/geometry core of the Portfolio repository.

The development shallowly embeds three components:
* the boid flocking helpers and per-frame update (`src/components/boids/utils.ts`),
* the floating-points connection derivation (`src/components/floating/FloatingPointsSimulation.ts`),
* the incremental Delaunay triangulator (`src/components/floating/delaunay.ts`).

Numeric code that involves trigonometry is embedded over `ℝ` (idealized
real-number semantics of the floating-point source); the Delaunay routine uses
only field operations and is embedded executably over `ℚ`.
-/

namespace Portfolio

noncomputable section BoidsUtils

open Real

/-- JavaScript truncation toward zero, as used by the `%` operator. -/
def jsTrunc (r : ℝ) : ℤ := if 0 ≤ r then ⌊r⌋ else -⌊-r⌋

/-- JavaScript remainder operator `n % d` on real numbers:
`n - d * trunc (n / d)`, so the result carries the sign of the dividend. -/
def jsMod (n d : ℝ) : ℝ := n - d * jsTrunc (n / d)

/-- `normalizeAngle` from `boids/utils.ts`:
`angle >= 0 ? angle % 2π : 2π - ((-angle) % 2π)`. -/
def normalizeAngle (angle : ℝ) : ℝ :=
  if 0 ≤ angle then jsMod angle (2 * π)
  else 2 * π - jsMod (-angle) (2 * π)

/-- `getSmallestAngleDifference` from `boids/utils.ts`: of
`target - current`, `target - current + 2π`, `target - current - 2π`,
return the first one that is of smallest absolute value. -/
def getSmallestAngleDifference (currentAngle targetAngle : ℝ) : ℝ :=
  let a := targetAngle - currentAngle
  let b := targetAngle - currentAngle + 2 * π
  let c := targetAngle - currentAngle - 2 * π
  if |a| ≤ |b| ∧ |a| ≤ |c| then a
  else if |b| ≤ |a| ∧ |b| ≤ |c| then b
  else c

/-- `Math.atan2 y x` (real-number semantics of the JavaScript builtin). -/
def jsAtan2 (y x : ℝ) : ℝ :=
  if 0 < x then arctan (y / x)
  else if x < 0 then (if 0 ≤ y then arctan (y / x) + π else arctan (y / x) - π)
  else if 0 < y then π / 2
  else if y < 0 then -(π / 2)
  else 0

/-- One-axis toroidal wrap used inside `getTorusDistance`:
`if |d| > size/2 then (d > 0 ? d - size : d + size) else d`. -/
def torusWrap (d size : ℝ) : ℝ :=
  if |d| > size / 2 then (if 0 < d then d - size else d + size) else d

/-- Result record of `getTorusDistance`. -/
structure TorusDelta where
  dx : ℝ
  dy : ℝ
  distanceSquared : ℝ

/-- `getTorusDistance` from `updateBoids` in `boids/utils.ts`. -/
def getTorusDistance (w h x1 y1 x2 y2 : ℝ) : TorusDelta :=
  let dx := torusWrap (x2 - x1) w
  let dy := torusWrap (y2 - y1) h
  ⟨dx, dy, dx * dx + dy * dy⟩

/-! ### Basic facts about `jsMod` and `jsTrunc` -/

theorem jsTrunc_of_nonneg {r : ℝ} (h : 0 ≤ r) : jsTrunc r = ⌊r⌋ := by
  simp [jsTrunc, h]

theorem jsMod_nonneg_of_nonneg {n d : ℝ} (hn : 0 ≤ n) (hd : 0 < d) :
    0 ≤ jsMod n d := by
  rw [jsMod, jsTrunc_of_nonneg (by positivity)]
  have h := Int.sub_floor_div_mul_nonneg n hd
  simpa [mul_comm] using h

theorem jsMod_lt_of_nonneg {n d : ℝ} (hn : 0 ≤ n) (hd : 0 < d) :
    jsMod n d < d := by
  rw [jsMod, jsTrunc_of_nonneg (by positivity)]
  have h := Int.sub_floor_div_mul_lt n hd
  simpa [mul_comm] using h

theorem jsMod_eq_self {n d : ℝ} (hn : 0 ≤ n) (hnd : n < d) :
    jsMod n d = n := by
  have hd : 0 < d := lt_of_le_of_lt hn hnd
  have h0 : (0 : ℝ) ≤ n / d := by positivity
  have h1 : n / d < 1 := (div_lt_one hd).mpr hnd
  rw [jsMod, jsTrunc_of_nonneg h0]
  have : ⌊n / d⌋ = 0 := by
    apply Int.floor_eq_zero_iff.mpr
    constructor <;> simp_all
  simp [this]

theorem jsMod_self_eq_zero {d : ℝ} (hd : 0 < d) : jsMod d d = d - d := by
  have : d / d = 1 := div_self (ne_of_gt hd)
  rw [jsMod, jsTrunc_of_nonneg (by rw [this]; norm_num)]
  rw [this]
  norm_num

theorem twoPi_pos : (0 : ℝ) < 2 * π := by positivity

/-- Claim C2 (amended): `normalizeAngle` maps every real into the closed
interval `[0, 2π]`; except when the input is a negative integer multiple of
`2π` (where the result is exactly `2π`), the result lies in `[0, 2π)` and
`normalizeAngle` is idempotent there. -/
theorem claim_C2_amended (a : ℝ) :
    0 ≤ normalizeAngle a ∧ normalizeAngle a ≤ 2 * π ∧
      ((a < 0 ∧ ∃ k : ℤ, a = 2 * π * k) ∨
        (normalizeAngle a < 2 * π ∧
          normalizeAngle (normalizeAngle a) = normalizeAngle a)) := by
  rcases le_or_lt 0 a with ha | ha
  · have h0 : 0 ≤ jsMod a (2 * π) := jsMod_nonneg_of_nonneg ha twoPi_pos
    have h1 : jsMod a (2 * π) < 2 * π := jsMod_lt_of_nonneg ha twoPi_pos
    have hN : normalizeAngle a = jsMod a (2 * π) := by simp [normalizeAngle, ha]
    refine ⟨by rw [hN]; exact h0, by rw [hN]; linarith, Or.inr ⟨by rw [hN]; exact h1, ?_⟩⟩
    rw [hN, normalizeAngle, if_pos h0, jsMod_eq_self h0 h1]
  · have hneg : ¬ (0 ≤ a) := not_le.mpr ha
    have hna : (0 : ℝ) ≤ -a := by linarith
    have h0 : 0 ≤ jsMod (-a) (2 * π) := jsMod_nonneg_of_nonneg hna twoPi_pos
    have h1 : jsMod (-a) (2 * π) < 2 * π := jsMod_lt_of_nonneg hna twoPi_pos
    have hN : normalizeAngle a = 2 * π - jsMod (-a) (2 * π) := by
      simp [normalizeAngle, hneg]
    rcases eq_or_lt_of_le h0 with h2 | h2
    · refine ⟨by rw [hN]; linarith, by rw [hN]; linarith, Or.inl ⟨ha, ?_⟩⟩
      have := h2.symm
      rw [jsMod, jsTrunc_of_nonneg (by positivity)] at this
      refine ⟨-⌊-a / (2 * π)⌋, ?_⟩
      push_cast
      linarith
    · have hlt : normalizeAngle a < 2 * π := by rw [hN]; linarith
      refine ⟨by rw [hN]; linarith, by rw [hN]; linarith, Or.inr ⟨hlt, ?_⟩⟩
      have hge : 0 ≤ normalizeAngle a := by rw [hN]; linarith
      rw [normalizeAngle, if_pos hge, jsMod_eq_self hge hlt]

/-- Claim C2 counterexample: at `a = -2π` the code returns exactly `2π`,
which is outside `[0, 2π)`, and applying `normalizeAngle` again gives `0`,
so idempotence fails there as well. -/
theorem claim_C2_counterexample :
    normalizeAngle (-(2 * π)) = 2 * π ∧
      normalizeAngle (normalizeAngle (-(2 * π))) = 0 ∧
      ¬ normalizeAngle (-(2 * π)) < 2 * π ∧
      normalizeAngle (normalizeAngle (-(2 * π))) ≠ normalizeAngle (-(2 * π)) := by
  have hneg : ¬ (0 ≤ -(2 * π)) := by
    push_neg
    linarith [twoPi_pos]
  have hmod : jsMod (2 * π) (2 * π) = 0 := by
    have := jsMod_self_eq_zero twoPi_pos
    linarith
  have h1 : normalizeAngle (-(2 * π)) = 2 * π := by
    rw [normalizeAngle, if_neg hneg]
    simp [hmod]
  have h2 : normalizeAngle (2 * π) = 0 := by
    rw [normalizeAngle, if_pos (le_of_lt twoPi_pos), hmod]
  refine ⟨h1, by rw [h1, h2], by rw [h1]; exact lt_irrefl _, ?_⟩
  rw [h1, h2]
  intro h
  exact absurd h.symm (ne_of_gt twoPi_pos)

/-- Claim C3: for `current, target ∈ [0, 2π)`, the smallest-angle difference
has magnitude at most `π` and `current + result ≡ target (mod 2π)`. -/
theorem claim_C3 (c t : ℝ) (hc0 : 0 ≤ c) (hc : c < 2 * π) (ht0 : 0 ≤ t)
    (ht : t < 2 * π) :
    |getSmallestAngleDifference c t| ≤ π ∧
      ∃ k : ℤ, c + getSmallestAngleDifference c t = t + 2 * π * k := by
  have hπ : (0 : ℝ) < π := pi_pos
  have hd1 : -(2 * π) < t - c := by linarith
  have hd2 : t - c < 2 * π := by linarith
  rw [getSmallestAngleDifference]
  split_ifs with h1 h2
  · refine ⟨?_, 0, by push_cast; ring⟩
    rcases le_or_lt |t - c| π with h | h
    · exact h
    · exfalso
      rcases le_or_lt 0 (t - c) with hd0 | hd0
      · rw [abs_of_nonneg hd0] at h
        have hc2 : |t - c - 2 * π| = 2 * π - (t - c) := by
          rw [abs_of_nonpos (by linarith)]
          ring
        have := h1.2
        rw [abs_of_nonneg hd0, hc2] at this
        linarith
      · rw [abs_of_neg hd0] at h
        have hb2 : |t - c + 2 * π| = t - c + 2 * π := by
          rw [abs_of_nonneg (by linarith)]
        have := h1.1
        rw [abs_of_neg hd0, hb2] at this
        linarith
  · refine ⟨?_, 1, by push_cast; ring⟩
    have hb0 : 0 < t - c + 2 * π := by linarith
    rw [abs_of_pos hb0]
    have := h2.1
    rw [abs_of_pos hb0] at this
    rcases le_or_lt 0 (t - c) with hd0 | hd0
    · rw [abs_of_nonneg hd0] at this
      linarith
    · rw [abs_of_neg hd0] at this
      linarith
  · refine ⟨?_, -1, by push_cast; ring⟩
    have hc0' : t - c - 2 * π < 0 := by linarith
    rw [abs_of_neg hc0']
    push_neg at h1 h2
    rcases le_or_lt |t - c| |t - c + 2 * π| with hab | hab
    · have hca := h1 hab
      rcases le_or_lt 0 (t - c) with hd0 | hd0
      · rw [abs_of_nonneg hd0, abs_of_neg hc0'] at hca
        linarith
      · rw [abs_of_neg hd0, abs_of_neg hc0'] at hca
        linarith
    · have hcb := h2 (le_of_lt hab)
      have hb0 : 0 < t - c + 2 * π := by linarith
      rcases le_or_lt 0 (t - c) with hd0 | hd0
      · rw [abs_of_nonneg hd0, abs_of_pos hb0] at hab
        linarith
      · exfalso
        rw [abs_of_pos hb0, abs_of_neg hc0'] at hcb
        linarith

/-- Witness for C3 at `current = 0`, `target = 0`. -/
theorem claim_C3_witness :
    ((0 : ℝ) ≤ 0 ∧ (0 : ℝ) < 2 * π) ∧
      (|getSmallestAngleDifference 0 0| ≤ π ∧
        ∃ k : ℤ, (0 : ℝ) + getSmallestAngleDifference 0 0 = 0 + 2 * π * k) :=
  ⟨⟨le_refl 0, twoPi_pos⟩,
    claim_C3 0 0 (le_refl 0) twoPi_pos (le_refl 0) twoPi_pos⟩

theorem torusWrap_abs_le (d : ℝ) {size : ℝ} (h : 0 < size) :
    |torusWrap d size| ≤ |d| := by
  rw [torusWrap]
  split_ifs with h1 h2
  · rw [abs_of_pos h2] at h1
    rw [abs_of_pos h2, abs_le]
    constructor <;> linarith
  · push_neg at h2
    have hd0 : d < 0 := by
      rcases lt_or_eq_of_le h2 with h3 | h3
      · exact h3
      · exfalso
        rw [h3] at h1
        simp at h1
        linarith
    rw [abs_of_neg hd0] at h1
    rw [abs_of_neg hd0, abs_le]
    constructor <;> linarith
  · exact le_refl _

/-- Claim C4: each wrapped component of `getTorusDistance` has magnitude at
most `max(direct, size − direct)`, and the wrapped distance never exceeds the
direct Euclidean distance. -/
theorem claim_C4 (w h x1 y1 x2 y2 : ℝ) (hw : 0 < w) (hh : 0 < h) :
    |(getTorusDistance w h x1 y1 x2 y2).dx| ≤ max |x2 - x1| (w - |x2 - x1|) ∧
      |(getTorusDistance w h x1 y1 x2 y2).dy| ≤ max |y2 - y1| (h - |y2 - y1|) ∧
      Real.sqrt (getTorusDistance w h x1 y1 x2 y2).distanceSquared ≤
        Real.sqrt ((x2 - x1) * (x2 - x1) + (y2 - y1) * (y2 - y1)) := by
  have hx := torusWrap_abs_le (x2 - x1) hw
  have hy := torusWrap_abs_le (y2 - y1) hh
  refine ⟨le_trans hx (le_max_left _ _), le_trans hy (le_max_left _ _), ?_⟩
  apply Real.sqrt_le_sqrt
  show torusWrap (x2 - x1) w * torusWrap (x2 - x1) w +
      torusWrap (y2 - y1) h * torusWrap (y2 - y1) h ≤ _
  have hx2 : torusWrap (x2 - x1) w * torusWrap (x2 - x1) w ≤
      (x2 - x1) * (x2 - x1) := by
    have := mul_self_le_mul_self (abs_nonneg (torusWrap (x2 - x1) w)) hx
    rwa [abs_mul_abs_self, abs_mul_abs_self] at this
  have hy2 : torusWrap (y2 - y1) h * torusWrap (y2 - y1) h ≤
      (y2 - y1) * (y2 - y1) := by
    have := mul_self_le_mul_self (abs_nonneg (torusWrap (y2 - y1) h)) hy
    rwa [abs_mul_abs_self, abs_mul_abs_self] at this
  linarith

/-- Witness for C4 at `w = h = 1` and coincident points. -/
theorem claim_C4_witness :
    ((0 : ℝ) < 1 ∧ (0 : ℝ) < 1) ∧
      (|(getTorusDistance 1 1 0 0 0 0).dx| ≤ max |(0 : ℝ) - 0| (1 - |(0 : ℝ) - 0|) ∧
        |(getTorusDistance 1 1 0 0 0 0).dy| ≤ max |(0 : ℝ) - 0| (1 - |(0 : ℝ) - 0|) ∧
        Real.sqrt (getTorusDistance 1 1 0 0 0 0).distanceSquared ≤
          Real.sqrt (((0 : ℝ) - 0) * ((0 : ℝ) - 0) + ((0 : ℝ) - 0) * ((0 : ℝ) - 0))) :=
  ⟨⟨one_pos, one_pos⟩, claim_C4 1 1 0 0 0 0 one_pos one_pos⟩

end BoidsUtils

namespace Delaunay

/-- Input point of the triangulator (`floating/delaunay.ts` uses only the
`id`, `x`, `y` fields of `Point`); synthetic super-triangle points carry
negative ids, hence `id : ℤ`. -/
structure DPoint where
  id : ℤ
  x : ℚ
  y : ℚ
  deriving DecidableEq, Repr

/-- `Edge` from `delaunay.ts`. -/
structure DEdge where
  p1 : ℤ
  p2 : ℤ
  deriving DecidableEq, Repr

/-- `Triangle` from `floating/types.ts`. -/
structure DTriangle where
  p1 : ℤ
  p2 : ℤ
  p3 : ℤ
  centroidX : ℚ
  centroidY : ℚ
  neighbors : List ℕ
  deriving DecidableEq, Repr

/-- `circumcircleContains` from `delaunay.ts`: determinant guard at `1e-10`,
then strict containment test against the circumcenter. -/
def circumcircleContains (ax ay bx c_by cx cy px py : ℚ) : Bool :=
  let d := 2 * (ax * (c_by - cy) + bx * (cy - ay) + cx * (ay - c_by))
  if |d| < 1 / 10 ^ 10 then false
  else
    let ux := ((ax * ax + ay * ay) * (c_by - cy) + (bx * bx + c_by * c_by) * (cy - ay) +
      (cx * cx + cy * cy) * (ay - c_by)) / d
    let uy := ((ax * ax + ay * ay) * (cx - bx) + (bx * bx + c_by * c_by) * (ax - cx) +
      (cx * cx + cy * cy) * (bx - ax)) / d
    let radiusSq := (ax - ux) * (ax - ux) + (ay - uy) * (ay - uy)
    let distSq := (px - ux) * (px - ux) + (py - uy) * (py - uy)
    decide (distSq < radiusSq)

/-- `edgeEquals` from `delaunay.ts`. -/
def edgeEquals (e1 e2 : DEdge) : Bool :=
  (e1.p1 == e2.p1 && e1.p2 == e2.p2) || (e1.p1 == e2.p2 && e1.p2 == e2.p1)

/-- The three directed edges of a triangle, in source order. -/
def triEdges (t : DTriangle) : List DEdge :=
  [⟨t.p1, t.p2⟩, ⟨t.p2, t.p3⟩, ⟨t.p3, t.p1⟩]

/-- `Math.min` over a nonempty argument list. -/
def listMin : List ℚ → ℚ
  | [] => 0
  | x :: xs => xs.foldl min x

/-- `Math.max` over a nonempty argument list. -/
def listMax : List ℚ → ℚ
  | [] => 0
  | x :: xs => xs.foldl max x

/-- One insertion step of the Bowyer–Watson loop in `triangulate`
(body of `for (const point of points)`); array positions stand in for the
JavaScript object identities used by `includes`/`===`. -/
def insertPoint (getPoint : ℤ → DPoint) (triangles : List DTriangle)
    (point : DPoint) : List DTriangle :=
  let badPairs := triangles.enum.filter fun it =>
    let p1 := getPoint it.2.p1
    let p2 := getPoint it.2.p2
    let p3 := getPoint it.2.p3
    circumcircleContains p1.x p1.y p2.x p2.y p3.x p3.y point.x point.y
  let polygon := badPairs.flatMap fun bi =>
    (triEdges bi.2).filter fun edge =>
      ! badPairs.any fun bj =>
        bj.1 ≠ bi.1 && (triEdges bj.2).any fun e => edgeEquals e edge
  let kept := (triangles.enum.filter fun it =>
    ! badPairs.any fun bj => bj.1 == it.1).map (·.2)
  kept ++ polygon.map fun edge =>
    let p1 := getPoint edge.p1
    let p2 := getPoint edge.p2
    { p1 := edge.p1, p2 := edge.p2, p3 := point.id,
      centroidX := (p1.x + p2.x + point.x) / 3,
      centroidY := (p1.y + p2.y + point.y) / 3,
      neighbors := [] }

/-- `triangulate` from `delaunay.ts` (Bowyer–Watson with a finite
super-triangle, final filtering of synthetic vertices, and the quadratic
neighbor pass). -/
def triangulate (points : List DPoint) : List DTriangle :=
  if points.length < 3 then []
  else
    let minX := listMin (points.map (·.x)) - 100
    let minY := listMin (points.map (·.y)) - 100
    let maxX := listMax (points.map (·.x)) + 100
    let maxY := listMax (points.map (·.y)) + 100
    let dx := maxX - minX
    let dy := maxY - minY
    let deltaMax := max dx dy
    let midX := (minX + maxX) / 2
    let midY := (minY + maxY) / 2
    let superTriangle : DTriangle :=
      { p1 := -1, p2 := -2, p3 := -3, centroidX := midX, centroidY := midY,
        neighbors := [] }
    let superPoints : List DPoint :=
      [⟨-1, midX - 2 * deltaMax, midY - deltaMax⟩,
       ⟨-2, midX, midY + 2 * deltaMax⟩,
       ⟨-3, midX + 2 * deltaMax, midY - deltaMax⟩]
    let getPoint : ℤ → DPoint := fun id =>
      if id < 0 then superPoints.getD (-id - 1).toNat ⟨0, 0, 0⟩
      else ((points.find? fun p => p.id == id).getD ⟨0, 0, 0⟩)
    let inserted := points.foldl (insertPoint getPoint) [superTriangle]
    let real := inserted.filter fun t => 0 ≤ t.p1 && 0 ≤ t.p2 && 0 ≤ t.p3
    real.enum.map fun it =>
      { it.2 with
        neighbors := (real.enum.filter fun jt =>
          jt.1 ≠ it.1 &&
            (triEdges it.2).any fun e1 => (triEdges jt.2).any fun e2 =>
              edgeEquals e1 e2).map (·.1) }

/-- Whether the undirected edge `{a, b}` occurs among a triangle's edges. -/
def containsEdge (t : DTriangle) (a b : ℤ) : Bool :=
  (triEdges t).any fun e => edgeEquals e ⟨a, b⟩

/-- Three points are collinear when the cross product of the two spanned
vectors vanishes. -/
def collinearQ (p q r : DPoint) : Prop :=
  (q.x - p.x) * (r.y - p.y) - (q.y - p.y) * (r.x - p.x) = 0

attribute [local semireducible] Rat.add Rat.sub Rat.mul Rat.inv in
/-- Claim C9, evaluated at the failing input: fewer than 3 points do yield an
empty list, but the three non-collinear points `(0,0)`, `(2,0)`,
`(1, -1/1000)` also yield an empty list instead of the single triangle on
those three vertices (the thin point lies inside the circumcircles of both
triangles flanking the edge, so the real triangle is never created and all
replacement triangles keep super-triangle vertices). -/
theorem claim_C9_bug :
    triangulate [] = [] ∧
      triangulate [⟨0, 0, 0⟩] = [] ∧
      triangulate [⟨0, 0, 0⟩, ⟨1, 2, 0⟩] = [] ∧
      ¬ collinearQ ⟨0, 0, 0⟩ ⟨1, 2, 0⟩ ⟨2, 1, -1/1000⟩ ∧
      triangulate [⟨0, 0, 0⟩, ⟨1, 2, 0⟩, ⟨2, 1, -1/1000⟩] = [] := by
  refine ⟨rfl, rfl, rfl, ?_, by decide⟩
  rw [collinearQ]
  norm_num

attribute [local semireducible] Rat.add Rat.sub Rat.mul Rat.inv in
/-- Claim C8, evaluated at the failing input `(0,0)`, `(2,0)`,
`(1, -1/1000)`, `(1, -5)`: the produced triangulation consists of the two
triangles `(0,2,3)` and `(2,1,3)`, and the edge `{0, 2}` lies in exactly one
produced triangle although it is not a convex-hull edge (the first two
conjuncts are the cross products of input points `1` resp. `3` against the
oriented line from point `0` to point `2`: they have strictly opposite signs,
so the supporting line of `{0, 2}` separates input points and the edge cannot
lie on the hull). This refutes the claimed "every non-hull edge is shared by
exactly two triangles". -/
theorem claim_C8_bug :
    (0 : ℚ) < ((1 : ℚ) - 0) * ((0 : ℚ) - 0) - ((-1/1000 : ℚ) - 0) * ((2 : ℚ) - 0) ∧
      ((1 : ℚ) - 0) * ((-5 : ℚ) - 0) - ((-1/1000 : ℚ) - 0) * ((1 : ℚ) - 0) < 0 ∧
      (triangulate [⟨0, 0, 0⟩, ⟨1, 2, 0⟩, ⟨2, 1, -1/1000⟩, ⟨3, 1, -5⟩]).map
          (fun t => (t.p1, t.p2, t.p3)) = [(0, 2, 3), (2, 1, 3)] ∧
      (triangulate [⟨0, 0, 0⟩, ⟨1, 2, 0⟩, ⟨2, 1, -1/1000⟩, ⟨3, 1, -5⟩]).countP
          (fun t => containsEdge t 0 2) = 1 := by
  refine ⟨by norm_num, by norm_num, by decide, by decide⟩

end Delaunay

noncomputable section Floating

open Real

namespace Floating

/-- `ANGULAR_SECTORS` from `floating/constants.ts`. -/
def ANGULAR_SECTORS : ℕ := 3

/-- `MAX_PER_SECTOR` from `floating/constants.ts`. -/
def MAX_PER_SECTOR : ℕ := 2

/-- `ANGULAR_PROXIMITY_THRESHOLD` from `floating/constants.ts`. -/
def ANGULAR_PROXIMITY_THRESHOLD : ℝ := π / 6

/-- Field-engine particle; connection derivation reads only the `id`, `x`,
`y` fields of `Point`. -/
structure FPoint where
  id : ℕ
  x : ℝ
  y : ℝ

/-- `Connection` from `FloatingPointsSimulation.ts`. -/
structure Connection where
  p1 : FPoint
  p2 : FPoint
  distance : ℝ

/-- `getAngularSector` from `FloatingPointsSimulation.ts`: double-remainder
normalization into `[0, 2π)`, then `Math.floor(· / 2π * ANGULAR_SECTORS) %
ANGULAR_SECTORS` with the JavaScript (truncated) integer remainder. -/
def getAngularSector (angle : ℝ) : ℤ :=
  let normalizedAngle := jsMod (jsMod angle (π * 2) + π * 2) (π * 2)
  Int.tmod ⌊normalizedAngle / (π * 2) * (ANGULAR_SECTORS : ℝ)⌋ (ANGULAR_SECTORS : ℤ)

/-- Wrapped angular difference used by `canAddConnection`:
`|a − b|`, folded to `2π − |a − b|` when above `π`. -/
def angleDiffWrap (a b : ℝ) : ℝ :=
  let d := |a - b|
  if d > π then π * 2 - d else d

/-- `canAddConnection` from `FloatingPointsSimulation.ts`: reject when the
direction's sector is full, or when at least `MAX_PER_SECTOR` already-accepted
directions lie within `ANGULAR_PROXIMITY_THRESHOLD` of the new direction. -/
def canAddConnection (particleAngles : List ℝ) (newAngle : ℝ)
    (sectorCounts : ℤ → ℕ) : Bool :=
  let sector := getAngularSector newAngle
  if MAX_PER_SECTOR ≤ sectorCounts sector then false
  else
    let nearbyCount := (particleAngles.filter fun existingAngle =>
      angleDiffWrap newAngle existingAngle < ANGULAR_PROXIMITY_THRESHOLD).length
    decide (nearbyCount < MAX_PER_SECTOR)

/-- Candidate connection (`PotentialConnection` in the source). -/
structure Potential where
  p1 : FPoint
  p2 : FPoint
  distance : ℝ
  angle1 : ℝ
  angle2 : ℝ

/-- All ordered pairs `(points[i], points[j])` with `i < j`, in the double-loop
order of the source. -/
def pairsAux : List FPoint → List (FPoint × FPoint)
  | [] => []
  | p :: ps => (ps.map fun q => (p, q)) ++ pairsAux ps

/-- Candidate construction for one pair in `findConnections`: keep the pair
when its distance is below `maxDist`, recording the direction angles seen
from each endpoint. -/
def mkPotential (maxDist : ℝ) (pq : FPoint × FPoint) : Option Potential :=
  let dx := pq.2.x - pq.1.x
  let dy := pq.2.y - pq.1.y
  let distance := Real.sqrt (dx * dx + dy * dy)
  if distance < maxDist then
    some ⟨pq.1, pq.2, distance, jsAtan2 dy dx, jsAtan2 (-dy) (-dx)⟩
  else none

/-- Candidate enumeration of `findConnections`: all pairs closer than
`maxDist`, with the direction angles seen from each endpoint. -/
def potentials (points : List FPoint) (maxDist : ℝ) : List Potential :=
  (pairsAux points).filterMap (mkPotential maxDist)

/-- Stable insertion of a candidate into a distance-sorted list (model of the
stable JavaScript `sort((a, b) => a.distance - b.distance)`). -/
def insertByDistance (c : Potential) : List Potential → List Potential
  | [] => [c]
  | d :: ds =>
    if d.distance < c.distance then d :: insertByDistance c ds else c :: d :: ds

/-- Stable sort of the candidate list by ascending distance. -/
def sortByDistance : List Potential → List Potential
  | [] => []
  | c :: cs => insertByDistance c (sortByDistance cs)

/-- Pointwise update of a function-modelled map (a `Map`/array cell write). -/
def updateFn {α : Type} {β : Type} [DecidableEq α] (f : α → β) (k : α)
    (g : β → β) : α → β :=
  fun i => if i = k then g (f i) else f i

/-- State of the greedy acceptance loop: accepted connections plus the
per-particle accepted-direction lists and per-sector counts. -/
structure ConnState where
  connections : List Connection
  angles : ℕ → List ℝ
  sectors : ℕ → ℤ → ℕ

/-- Initial loop state (all tracking empty). -/
def connInit : ConnState := ⟨[], fun _ => [], fun _ _ => 0⟩

/-- One iteration of the greedy acceptance loop of `findConnections`: accept
the candidate iff both endpoints pass `canAddConnection`, then record the
direction and bump the sector count at both endpoints. -/
def acceptStep (s : ConnState) (pc : Potential) : ConnState :=
  if canAddConnection (s.angles pc.p1.id) pc.angle1 (s.sectors pc.p1.id) &&
      canAddConnection (s.angles pc.p2.id) pc.angle2 (s.sectors pc.p2.id) then
    { connections := s.connections ++ [⟨pc.p1, pc.p2, pc.distance⟩],
      angles := updateFn (updateFn s.angles pc.p1.id fun l => l ++ [pc.angle1])
        pc.p2.id fun l => l ++ [pc.angle2],
      sectors := updateFn (updateFn s.sectors pc.p1.id fun cnt =>
          updateFn cnt (getAngularSector pc.angle1) fun n => n + 1)
        pc.p2.id fun cnt =>
          updateFn cnt (getAngularSector pc.angle2) fun n => n + 1 }
  else s

/-- Full greedy loop of `findConnections`, returning the final state. -/
def runConnections (points : List FPoint) (maxDist : ℝ) : ConnState :=
  (sortByDistance (potentials points maxDist)).foldl acceptStep connInit

/-- `findConnections` from `FloatingPointsSimulation.ts` (the connection
radius is the `connectionRadiusRef` value, passed here as `maxDist`). -/
def findConnections (points : List FPoint) (maxDist : ℝ) : List Connection :=
  (runConnections points maxDist).connections

/-- Number of accepted connections incident to the particle with id `i`. -/
def degree (conns : List Connection) (i : ℕ) : ℕ :=
  conns.countP fun c => c.p1.id == i || c.p2.id == i

theorem canAddConnection_true_iff (angles : List ℝ) (na : ℝ) (cnt : ℤ → ℕ) :
    canAddConnection angles na cnt = true ↔
      (cnt (getAngularSector na) < MAX_PER_SECTOR ∧
        (angles.filter fun e =>
          angleDiffWrap na e < ANGULAR_PROXIMITY_THRESHOLD).length < MAX_PER_SECTOR) := by
  rw [canAddConnection]
  split_ifs with h
  · simp only [Bool.false_eq_true, false_iff, not_and]
    intro hlt
    exact absurd h (not_le.mpr hlt)
  · simp only [decide_eq_true_eq]
    push_neg at h
    exact ⟨fun hl => ⟨h, hl⟩, fun hl => hl.2⟩

/-! ### Range facts for `jsMod` on negative inputs and for `getAngularSector` -/

theorem jsMod_neg_bounds {n d : ℝ} (hn : n < 0) (hd : 0 < d) :
    -d < jsMod n d ∧ jsMod n d ≤ 0 := by
  have hq : ¬ (0 ≤ n / d) := by
    rw [not_le]
    exact div_neg_of_neg_of_pos hn hd
  have htr : jsTrunc (n / d) = ⌈n / d⌉ := by
    rw [jsTrunc, if_neg hq, Int.floor_neg]
    ring
  rw [jsMod, htr]
  constructor
  · have h1 : (⌈n / d⌉ : ℝ) < n / d + 1 := Int.ceil_lt_add_one _
    have h2 : d * (⌈n / d⌉ : ℝ) < d * (n / d + 1) := by
      exact (mul_lt_mul_left hd).mpr h1
    have h3 : d * (n / d) = n := by field_simp
    nlinarith
  · have h1 : n / d ≤ (⌈n / d⌉ : ℝ) := Int.le_ceil _
    have h2 : d * (n / d) ≤ d * (⌈n / d⌉ : ℝ) := by
      exact (mul_le_mul_left hd).mpr h1
    have h3 : d * (n / d) = n := by field_simp
    linarith

theorem jsMod_mem_of_small {x d : ℝ} (hd : 0 < d) (h0 : -d < x) (h1 : x < d)
    (hx : x < 0) : jsMod x d = x := by
  have hq : ¬ (0 ≤ x / d) := by
    rw [not_le]
    exact div_neg_of_neg_of_pos hx hd
  have hfl : ⌊-(x / d)⌋ = 0 := by
    apply Int.floor_eq_zero_iff.mpr
    constructor
    · have h := div_nonneg (show (0 : ℝ) ≤ -x by linarith) (le_of_lt hd)
      rwa [neg_div] at h
    · rw [← neg_div, div_lt_one hd]
      linarith
  rw [jsMod, jsTrunc, if_neg hq, hfl]
  simp

theorem jsMod_add_self {x d : ℝ} (hd : 0 < d) (h0 : 0 ≤ x) (h1 : x < d) :
    jsMod (x + d) d = x := by
  have hq : (x + d) / d = x / d + 1 := by field_simp
  have hfl : ⌊x / d⌋ = 0 := by
    apply Int.floor_eq_zero_iff.mpr
    exact ⟨by positivity, by rw [div_lt_one hd]; exact h1⟩
  rw [jsMod, jsTrunc_of_nonneg (by positivity), hq]
  rw [Int.floor_add_one, hfl]
  push_cast
  ring

/-- The double-remainder normalization in `getAngularSector` always lands in
`[0, 2π)`. -/
theorem normalizedAngle_bounds (a : ℝ) :
    0 ≤ jsMod (jsMod a (π * 2) + π * 2) (π * 2) ∧
      jsMod (jsMod a (π * 2) + π * 2) (π * 2) < π * 2 := by
  have hd : (0 : ℝ) < π * 2 := by positivity
  have hinner : 0 ≤ jsMod a (π * 2) + π * 2 := by
    rcases le_or_lt 0 a with ha | ha
    · have := jsMod_nonneg_of_nonneg ha hd
      linarith
    · have := (jsMod_neg_bounds ha hd).1
      linarith
  exact ⟨jsMod_nonneg_of_nonneg hinner hd, jsMod_lt_of_nonneg hinner hd⟩

theorem Int.tmod_self_of_range {x : ℤ} (h0 : 0 ≤ x) (h1 : x < 3) :
    Int.tmod x 3 = x := by
  interval_cases x <;> decide

theorem getAngularSector_bounds (a : ℝ) :
    0 ≤ getAngularSector a ∧ getAngularSector a < 3 := by
  rw [getAngularSector]
  have hd : (0 : ℝ) < π * 2 := by positivity
  obtain ⟨h0, h1⟩ := normalizedAngle_bounds a
  set n := jsMod (jsMod a (π * 2) + π * 2) (π * 2) with hn
  have hr0 : (0 : ℝ) ≤ n / (π * 2) * (ANGULAR_SECTORS : ℝ) := by positivity
  have hr1 : n / (π * 2) * (ANGULAR_SECTORS : ℝ) < 3 := by
    have : n / (π * 2) < 1 := (div_lt_one hd).mpr h1
    have h3 : (ANGULAR_SECTORS : ℝ) = 3 := by norm_num [ANGULAR_SECTORS]
    rw [h3]
    nlinarith
  have hf0 : 0 ≤ ⌊n / (π * 2) * (ANGULAR_SECTORS : ℝ)⌋ := Int.floor_nonneg.mpr hr0
  have hf1 : ⌊n / (π * 2) * (ANGULAR_SECTORS : ℝ)⌋ < 3 := by
    have := Int.floor_le (n / (π * 2) * (ANGULAR_SECTORS : ℝ))
    have hcast : (⌊n / (π * 2) * (ANGULAR_SECTORS : ℝ)⌋ : ℝ) < 3 := by linarith
    exact_mod_cast hcast
  rw [show ((ANGULAR_SECTORS : ℕ) : ℤ) = 3 by norm_num [ANGULAR_SECTORS]]
  rw [Int.tmod_self_of_range hf0 hf1]
  exact ⟨hf0, hf1⟩

/-! ### The degree invariant of the greedy acceptance loop -/

/-- Loop invariant: each particle's degree is bounded by the sum of its three
sector counters, and every sector counter is at most `MAX_PER_SECTOR`. -/
def ConnInv (s : ConnState) : Prop :=
  ∀ i : ℕ,
    degree s.connections i ≤ s.sectors i 0 + s.sectors i 1 + s.sectors i 2 ∧
      ∀ sec : ℤ, s.sectors i sec ≤ MAX_PER_SECTOR

theorem connInv_init : ConnInv connInit := by
  intro i
  refine ⟨?_, fun sec => ?_⟩
  · simp [degree, connInit]
  · simp [connInit, MAX_PER_SECTOR]

theorem bump_sum {c : ℤ → ℕ} {sec : ℤ} (h0 : 0 ≤ sec) (h1 : sec < 3) :
    updateFn c sec (fun n => n + 1) 0 + updateFn c sec (fun n => n + 1) 1 +
      updateFn c sec (fun n => n + 1) 2 = c 0 + c 1 + c 2 + 1 := by
  interval_cases sec <;> simp [updateFn] <;> omega

theorem bump_cap {c : ℤ → ℕ} {sec : ℤ} (hlt : c sec < MAX_PER_SECTOR)
    (hcap : ∀ j, c j ≤ MAX_PER_SECTOR) (j : ℤ) :
    updateFn c sec (fun n => n + 1) j ≤ MAX_PER_SECTOR := by
  rw [updateFn]
  split_ifs with h
  · subst h
    omega
  · exact hcap j

theorem connInv_acceptStep {s : ConnState} {pc : Potential}
    (hne : pc.p1.id ≠ pc.p2.id) (hs : ConnInv s) : ConnInv (acceptStep s pc) := by
  rw [acceptStep]
  split_ifs with hc
  · rw [Bool.and_eq_true] at hc
    obtain ⟨hsec1, -⟩ := (canAddConnection_true_iff _ _ _).mp hc.1
    obtain ⟨hsec2, -⟩ := (canAddConnection_true_iff _ _ _).mp hc.2
    obtain ⟨hb1, hb1'⟩ := getAngularSector_bounds pc.angle1
    obtain ⟨hb2, hb2'⟩ := getAngularSector_bounds pc.angle2
    intro i
    dsimp only
    obtain ⟨hdeg, hcap⟩ := hs i
    have hdeg_app : degree (s.connections ++ [⟨pc.p1, pc.p2, pc.distance⟩]) i =
        degree s.connections i +
          (if (pc.p1.id == i || pc.p2.id == i) = true then 1 else 0) := by
      rw [degree, degree, List.countP_append]
      simp [List.countP_cons, List.countP_nil]
    by_cases h2 : i = pc.p2.id
    · subst h2
      have h1ne : pc.p2.id ≠ pc.p1.id := fun h => hne h.symm
      have hsect : (updateFn (updateFn s.sectors pc.p1.id fun cnt =>
            updateFn cnt (getAngularSector pc.angle1) fun n => n + 1)
          pc.p2.id fun cnt =>
            updateFn cnt (getAngularSector pc.angle2) fun n => n + 1) pc.p2.id =
          updateFn (s.sectors pc.p2.id) (getAngularSector pc.angle2)
            fun n => n + 1 := by
        show updateFn _ pc.p2.id _ pc.p2.id = _
        rw [updateFn, if_pos rfl, updateFn, if_neg h1ne]
      rw [hsect, hdeg_app]
      constructor
      · have hpred : (pc.p1.id == pc.p2.id || pc.p2.id == pc.p2.id) = true := by
          simp
        rw [if_pos hpred, bump_sum hb2 hb2']
        omega
      · exact bump_cap hsec2 hcap
    · by_cases h1 : i = pc.p1.id
      · subst h1
        have hsect : (updateFn (updateFn s.sectors pc.p1.id fun cnt =>
              updateFn cnt (getAngularSector pc.angle1) fun n => n + 1)
            pc.p2.id fun cnt =>
              updateFn cnt (getAngularSector pc.angle2) fun n => n + 1) pc.p1.id =
            updateFn (s.sectors pc.p1.id) (getAngularSector pc.angle1)
              fun n => n + 1 := by
          show updateFn _ pc.p2.id _ pc.p1.id = _
          rw [updateFn, if_neg hne, updateFn, if_pos rfl]
        rw [hsect, hdeg_app]
        constructor
        · have hpred : (pc.p1.id == pc.p1.id || pc.p2.id == pc.p1.id) = true := by
            simp
          rw [if_pos hpred, bump_sum hb1 hb1']
          omega
        · exact bump_cap hsec1 hcap
      · have hsect : (updateFn (updateFn s.sectors pc.p1.id fun cnt =>
              updateFn cnt (getAngularSector pc.angle1) fun n => n + 1)
            pc.p2.id fun cnt =>
              updateFn cnt (getAngularSector pc.angle2) fun n => n + 1) i =
            s.sectors i := by
          show updateFn _ pc.p2.id _ i = _
          rw [updateFn, if_neg (fun h => h2 h), updateFn, if_neg (fun h => h1 h)]
        rw [hsect, hdeg_app]
        constructor
        · have hpred : ¬ ((pc.p1.id == i || pc.p2.id == i) = true) := by
            simp only [Bool.or_eq_true, beq_iff_eq]
            push_neg
            exact ⟨fun h => h1 h.symm, fun h => h2 h.symm⟩
          rw [if_neg hpred]
          omega
        · exact hcap
  · exact hs

theorem connInv_foldl {l : List Potential} :
    ∀ s : ConnState, (∀ pc ∈ l, pc.p1.id ≠ pc.p2.id) → ConnInv s →
      ConnInv (l.foldl acceptStep s) := by
  induction l with
  | nil => intro s _ hs; exact hs
  | cons pc rest ih =>
    intro s hl hs
    exact ih _ (fun q hq => hl q (List.mem_cons_of_mem _ hq))
      (connInv_acceptStep (hl pc (List.mem_cons_self _ _)) hs)

theorem mem_insertByDistance {x c : Potential} :
    ∀ {l : List Potential}, x ∈ insertByDistance c l → x = c ∨ x ∈ l := by
  intro l
  induction l with
  | nil => intro hx; simpa [insertByDistance] using hx
  | cons d ds ih =>
    intro hx
    rw [insertByDistance] at hx
    split_ifs at hx with h
    · rcases List.mem_cons.mp hx with h1 | h1
      · exact Or.inr (List.mem_cons.mpr (Or.inl h1))
      · rcases ih h1 with h2 | h2
        · exact Or.inl h2
        · exact Or.inr (List.mem_cons.mpr (Or.inr h2))
    · rcases List.mem_cons.mp hx with h1 | h1
      · exact Or.inl h1
      · exact Or.inr h1

theorem mem_sortByDistance {x : Potential} :
    ∀ {l : List Potential}, x ∈ sortByDistance l → x ∈ l := by
  intro l
  induction l with
  | nil => intro hx; simpa [sortByDistance] using hx
  | cons c cs ih =>
    intro hx
    rw [sortByDistance] at hx
    rcases mem_insertByDistance hx with h | h
    · exact h ▸ List.mem_cons_self _ _
    · exact List.mem_cons_of_mem _ (ih h)

theorem pairsAux_id_ne {x y : FPoint} :
    ∀ {pts : List FPoint}, (pts.map FPoint.id).Nodup → (x, y) ∈ pairsAux pts →
      x.id ≠ y.id := by
  intro pts
  induction pts with
  | nil => intro _ hx; simp [pairsAux] at hx
  | cons p ps ih =>
    intro hnd hx
    rw [List.map_cons, List.nodup_cons] at hnd
    rw [pairsAux, List.mem_append] at hx
    rcases hx with hx | hx
    · obtain ⟨q, hq, heq⟩ := List.mem_map.mp hx
      obtain ⟨hp, hqy⟩ := Prod.mk.injEq .. ▸ heq
      intro hid
      apply hnd.1
      rw [← hp] at hid
      rw [hid]
      exact List.mem_map.mpr ⟨y, hqy ▸ hq, rfl⟩
    · exact ih hnd.2 hx

theorem mem_potentials_id_ne {pc : Potential} {pts : List FPoint} {maxDist : ℝ}
    (hnd : (pts.map FPoint.id).Nodup) (hpc : pc ∈ potentials pts maxDist) :
    pc.p1.id ≠ pc.p2.id := by
  rw [potentials] at hpc
  obtain ⟨pq, hpq, heq⟩ := List.mem_filterMap.mp hpc
  have hne := pairsAux_id_ne hnd (show (pq.1, pq.2) ∈ pairsAux pts from hpq)
  rw [mkPotential] at heq
  split_ifs at heq with h
  rw [Option.some.injEq] at heq
  subst heq
  exact hne

/-- Claim C6: with distinct particle ids, at every step of the greedy
acceptance loop (any prefix of the sorted candidate list) and in particular
after full connection derivation, every particle has at most
`ANGULAR_SECTORS * MAX_PER_SECTOR` accepted connections. -/
theorem claim_C6 (points : List FPoint) (maxDist : ℝ)
    (hids : (points.map FPoint.id).Nodup) (k i : ℕ) :
    degree (((sortByDistance (potentials points maxDist)).take k).foldl
        acceptStep connInit).connections i ≤ ANGULAR_SECTORS * MAX_PER_SECTOR ∧
      degree (findConnections points maxDist) i ≤
        ANGULAR_SECTORS * MAX_PER_SECTOR := by
  have hne : ∀ pc ∈ sortByDistance (potentials points maxDist),
      pc.p1.id ≠ pc.p2.id := fun pc hpc =>
    mem_potentials_id_ne hids (mem_sortByDistance hpc)
  have hbound : ∀ l : List Potential, (∀ pc ∈ l, pc.p1.id ≠ pc.p2.id) →
      degree (l.foldl acceptStep connInit).connections i ≤
        ANGULAR_SECTORS * MAX_PER_SECTOR := by
    intro l hl
    have hinv := connInv_foldl connInit hl connInv_init
    obtain ⟨hdeg, hcap⟩ := hinv i
    have h0 := hcap 0
    have h1 := hcap 1
    have h2 := hcap 2
    have : ANGULAR_SECTORS * MAX_PER_SECTOR = 6 := by
      norm_num [ANGULAR_SECTORS, MAX_PER_SECTOR]
    rw [this]
    have hM : MAX_PER_SECTOR = 2 := rfl
    rw [hM] at h0 h1 h2
    omega
  constructor
  · exact hbound _ (fun pc hpc => hne pc (List.mem_of_mem_take hpc))
  · exact hbound _ hne

/-- Witness for C6: a single particle, `maxDist = 0`, prefix `0`. -/
theorem claim_C6_witness :
    (([⟨0, 0, 0⟩] : List FPoint).map FPoint.id).Nodup ∧
      (degree (((sortByDistance (potentials [⟨0, 0, 0⟩] 0)).take 0).foldl
          acceptStep connInit).connections 0 ≤ ANGULAR_SECTORS * MAX_PER_SECTOR ∧
        degree (findConnections [⟨0, 0, 0⟩] 0) 0 ≤
          ANGULAR_SECTORS * MAX_PER_SECTOR) :=
  ⟨by simp, claim_C6 [⟨0, 0, 0⟩] 0 (by simp) 0 0⟩

/-! ### Concrete evaluation lemmas for the C5 counterexample run -/

theorem sqrt3_gt_one : (1 : ℝ) < Real.sqrt 3 := by
  have h := Real.sqrt_lt_sqrt (by norm_num : (0 : ℝ) ≤ 1) (by norm_num : (1 : ℝ) < 3)
  rwa [Real.sqrt_one] at h

theorem sqrt3_lt_two : Real.sqrt 3 < 2 := by
  have h := Real.sqrt_lt_sqrt (by norm_num : (0 : ℝ) ≤ 3) (by norm_num : (3 : ℝ) < 4)
  rwa [show Real.sqrt 4 = 2 by
    rw [show (4 : ℝ) = 2 ^ 2 by norm_num, Real.sqrt_sq (by norm_num)]] at h

theorem sqrt2_gt_one : (1 : ℝ) < Real.sqrt 2 := by
  have h := Real.sqrt_lt_sqrt (by norm_num : (0 : ℝ) ≤ 1) (by norm_num : (1 : ℝ) < 2)
  rwa [Real.sqrt_one] at h

theorem sqrt2_lt_ten : Real.sqrt 2 < 10 := by
  have h := Real.sqrt_lt_sqrt (by norm_num : (0 : ℝ) ≤ 2) (by norm_num : (2 : ℝ) < 100)
  rwa [show Real.sqrt 100 = 10 by
    rw [show (100 : ℝ) = 10 ^ 2 by norm_num, Real.sqrt_sq (by norm_num)]] at h

theorem arctan_one_div_sqrt3 : Real.arctan (1 / Real.sqrt 3) = π / 6 := by
  have hs : Real.sqrt 3 ≠ 0 := by
    have := sqrt3_gt_one
    linarith
  have ht : Real.tan (π / 6) = 1 / Real.sqrt 3 := by
    rw [Real.tan_eq_sin_div_cos, Real.sin_pi_div_six, Real.cos_pi_div_six]
    field_simp
  rw [← ht, Real.arctan_tan (by linarith [pi_pos]) (by linarith [pi_pos])]

theorem jsAtan2_zero_of_pos {x : ℝ} (hx : 0 < x) : jsAtan2 0 x = 0 := by
  rw [jsAtan2, if_pos hx, zero_div, Real.arctan_zero]

theorem jsAtan2_zero_of_neg {x : ℝ} (hx : x < 0) : jsAtan2 0 x = π := by
  rw [jsAtan2, if_neg (by linarith : ¬ (0 : ℝ) < x), if_pos hx,
    if_pos (le_refl (0 : ℝ)), zero_div, Real.arctan_zero, zero_add]

theorem jsAtan2_one_one : jsAtan2 1 1 = π / 4 := by
  rw [jsAtan2, if_pos one_pos]
  norm_num [Real.arctan_one]

theorem jsAtan2_one_sqrt3 : jsAtan2 1 (Real.sqrt 3) = π / 6 := by
  rw [jsAtan2, if_pos (by linarith [sqrt3_gt_one] : (0 : ℝ) < Real.sqrt 3)]
  rw [one_div, ← one_div, arctan_one_div_sqrt3]

theorem jsAtan2_neg_one_neg_one : jsAtan2 (-1) (-1) = π / 4 - π := by
  rw [jsAtan2, if_neg (by norm_num : ¬ (0 : ℝ) < -1),
    if_pos (by norm_num : (-1 : ℝ) < 0), if_neg (by norm_num : ¬ (0 : ℝ) ≤ -1)]
  norm_num [Real.arctan_one]

theorem jsAtan2_neg_one_neg_sqrt3 :
    jsAtan2 (-1) (-Real.sqrt 3) = π / 6 - π := by
  have h3 : (0 : ℝ) < Real.sqrt 3 := by linarith [sqrt3_gt_one]
  rw [jsAtan2, if_neg (by linarith : ¬ (0 : ℝ) < -Real.sqrt 3),
    if_pos (by linarith : -Real.sqrt 3 < 0),
    if_neg (by norm_num : ¬ (0 : ℝ) ≤ -1)]
  rw [neg_div_neg_eq, arctan_one_div_sqrt3]

theorem getAngularSector_of_mem {θ : ℝ} (h0 : 0 ≤ θ) (h1 : θ < π * 2) :
    getAngularSector θ = Int.tmod ⌊θ / (π * 2) * 3⌋ 3 := by
  have hd : (0 : ℝ) < π * 2 := by positivity
  rw [getAngularSector]
  rw [jsMod_eq_self h0 h1, jsMod_add_self hd h0 h1]
  norm_num [ANGULAR_SECTORS]

theorem getAngularSector_of_neg {θ : ℝ} (h0 : -(π * 2) < θ) (h1 : θ < 0) :
    getAngularSector θ = Int.tmod ⌊(θ + π * 2) / (π * 2) * 3⌋ 3 := by
  have hd : (0 : ℝ) < π * 2 := by positivity
  rw [getAngularSector]
  rw [jsMod_mem_of_small hd h0 (by linarith) h1,
    jsMod_eq_self (by linarith) (by linarith)]
  norm_num [ANGULAR_SECTORS]

theorem sector_zero : getAngularSector 0 = 0 := by
  rw [getAngularSector_of_mem (le_refl 0) (by positivity)]
  norm_num

theorem sector_pi : getAngularSector π = 1 := by
  have hπ := pi_pos
  rw [getAngularSector_of_mem (by linarith) (by linarith)]
  have h : π / (π * 2) * 3 = 3 / 2 := by
    field_simp
    ring
  rw [h, show ⌊(3 / 2 : ℝ)⌋ = 1 by norm_num [Int.floor_eq_iff]]
  decide

theorem sector_pi_div_four : getAngularSector (π / 4) = 0 := by
  have hπ := pi_pos
  rw [getAngularSector_of_mem (by linarith) (by linarith)]
  have h : π / 4 / (π * 2) * 3 = 3 / 8 := by
    field_simp
    ring
  rw [h, show ⌊(3 / 8 : ℝ)⌋ = 0 by norm_num [Int.floor_eq_iff]]
  decide

theorem sector_pi_div_six : getAngularSector (π / 6) = 0 := by
  have hπ := pi_pos
  rw [getAngularSector_of_mem (by linarith) (by linarith)]
  have h : π / 6 / (π * 2) * 3 = 1 / 4 := by
    field_simp
    ring
  rw [h, show ⌊(1 / 4 : ℝ)⌋ = 0 by norm_num [Int.floor_eq_iff]]
  decide

theorem sector_pi_div_four_sub_pi : getAngularSector (π / 4 - π) = 1 := by
  have hπ := pi_pos
  rw [getAngularSector_of_neg (by linarith) (by linarith)]
  have h : (π / 4 - π + π * 2) / (π * 2) * 3 = 15 / 8 := by
    field_simp
    ring
  rw [h, show ⌊(15 / 8 : ℝ)⌋ = 1 by norm_num [Int.floor_eq_iff]]
  decide

theorem sector_pi_div_six_sub_pi : getAngularSector (π / 6 - π) = 1 := by
  have hπ := pi_pos
  rw [getAngularSector_of_neg (by linarith) (by linarith)]
  have h : (π / 6 - π + π * 2) / (π * 2) * 3 = 7 / 4 := by
    field_simp
    ring
  rw [h, show ⌊(7 / 4 : ℝ)⌋ = 1 by norm_num [Int.floor_eq_iff]]
  decide

theorem adw_pi4_pi6_close :
    angleDiffWrap (π / 4) (π / 6) < ANGULAR_PROXIMITY_THRESHOLD := by
  have hπ := pi_pos
  rw [angleDiffWrap, ANGULAR_PROXIMITY_THRESHOLD]
  rw [abs_of_nonneg (by linarith), if_neg (by linarith : ¬ π / 4 - π / 6 > π)]
  linarith

theorem adw_pi6_pi4_close :
    angleDiffWrap (π / 6) (π / 4) < ANGULAR_PROXIMITY_THRESHOLD := by
  have hπ := pi_pos
  rw [angleDiffWrap, ANGULAR_PROXIMITY_THRESHOLD]
  rw [abs_of_nonpos (by linarith), if_neg (by linarith : ¬ -(π / 6 - π / 4) > π)]
  linarith

theorem adw_step2_far :
    ¬ angleDiffWrap (π / 4 - π) 0 < ANGULAR_PROXIMITY_THRESHOLD := by
  have hπ := pi_pos
  rw [angleDiffWrap, ANGULAR_PROXIMITY_THRESHOLD]
  rw [abs_of_nonpos (by linarith), if_neg (by linarith : ¬ -(π / 4 - π - 0) > π)]
  intro h
  linarith

theorem adw_step3_far :
    ¬ angleDiffWrap (π / 6 - π) π < ANGULAR_PROXIMITY_THRESHOLD := by
  have hπ := pi_pos
  rw [angleDiffWrap, ANGULAR_PROXIMITY_THRESHOLD]
  rw [abs_of_nonpos (by linarith), if_pos (by linarith : -(π / 6 - π - π) > π)]
  intro h
  linarith

/-- Claim C5 (amended): `canAddConnection` rejects a candidate direction iff
the direction's sector is already full, or at least `MAX_PER_SECTOR` (not
one) already-accepted directions lie within `ANGULAR_PROXIMITY_THRESHOLD` of
it; in particular a single nearby accepted edge does not cause rejection, so
two accepted connections at a particle can be closer than the threshold. -/
theorem claim_C5_amended (angles : List ℝ) (newAngle : ℝ) (cnt : ℤ → ℕ) :
    canAddConnection angles newAngle cnt = false ↔
      (MAX_PER_SECTOR ≤ cnt (getAngularSector newAngle) ∨
        MAX_PER_SECTOR ≤ (angles.filter fun e =>
          angleDiffWrap newAngle e < ANGULAR_PROXIMITY_THRESHOLD).length) := by
  have h := canAddConnection_true_iff angles newAngle cnt
  constructor
  · intro hfalse
    by_contra hcon
    push_neg at hcon
    have : canAddConnection angles newAngle cnt = true :=
      h.mpr ⟨hcon.1, hcon.2⟩
    rw [hfalse] at this
    exact Bool.false_ne_true this
  · intro hor
    cases hb : canAddConnection angles newAngle cnt
    · rfl
    · obtain ⟨h1, h2⟩ := h.mp hb
      rcases hor with h3 | h3
      · exact absurd h3 (not_le.mpr h1)
      · exact absurd h3 (not_le.mpr h2)

theorem sqrt2_lt_two : Real.sqrt 2 < 2 := by
  have h := Real.sqrt_lt_sqrt (by norm_num : (0 : ℝ) ≤ 2) (by norm_num : (2 : ℝ) < 4)
  rwa [show Real.sqrt 4 = 2 by
    rw [show (4 : ℝ) = 2 ^ 2 by norm_num, Real.sqrt_sq (by norm_num)]] at h

/-- The accepted branch of `acceptStep`, as an explicit record. -/
theorem acceptStep_of_true (s : ConnState) (pc : Potential)
    (h1 : canAddConnection (s.angles pc.p1.id) pc.angle1 (s.sectors pc.p1.id) = true)
    (h2 : canAddConnection (s.angles pc.p2.id) pc.angle2 (s.sectors pc.p2.id) = true) :
    acceptStep s pc =
      { connections := s.connections ++ [⟨pc.p1, pc.p2, pc.distance⟩],
        angles := updateFn (updateFn s.angles pc.p1.id fun l => l ++ [pc.angle1])
          pc.p2.id fun l => l ++ [pc.angle2],
        sectors := updateFn (updateFn s.sectors pc.p1.id fun cnt =>
            updateFn cnt (getAngularSector pc.angle1) fun n => n + 1)
          pc.p2.id fun cnt =>
            updateFn cnt (getAngularSector pc.angle2) fun n => n + 1 } := by
  rw [acceptStep, h1, h2]
  simp

theorem canAdd_nil (a : ℝ) : canAddConnection [] a (fun _ => 0) = true := by
  rw [canAddConnection_true_iff]
  refine ⟨?_, ?_⟩
  · show (0 : ℕ) < MAX_PER_SECTOR
    norm_num [MAX_PER_SECTOR]
  · simp [MAX_PER_SECTOR]

theorem canAdd_step2B : canAddConnection [0] (π / 4 - π)
    (updateFn (fun _ => 0) (getAngularSector 0) fun n => n + 1) = true := by
  rw [canAddConnection_true_iff]
  refine ⟨?_, ?_⟩
  · simp only [updateFn, sector_pi_div_four_sub_pi, sector_zero]
    norm_num [MAX_PER_SECTOR]
  · have h := adw_step2_far
    simp [h, MAX_PER_SECTOR]

theorem canAdd_step3A : canAddConnection [π / 4] (π / 6)
    (updateFn (fun _ => 0) (getAngularSector (π / 4)) fun n => n + 1) = true := by
  rw [canAddConnection_true_iff]
  refine ⟨?_, ?_⟩
  · simp only [updateFn, sector_pi_div_six, sector_pi_div_four]
    norm_num [MAX_PER_SECTOR]
  · have h := adw_pi6_pi4_close
    simp [h, MAX_PER_SECTOR]

theorem canAdd_step3C : canAddConnection [π] (π / 6 - π)
    (updateFn (fun _ => 0) (getAngularSector π) fun n => n + 1) = true := by
  rw [canAddConnection_true_iff]
  refine ⟨?_, ?_⟩
  · simp only [updateFn, sector_pi_div_six_sub_pi, sector_pi]
    norm_num [MAX_PER_SECTOR]
  · have h := adw_step3_far
    simp [h, MAX_PER_SECTOR]

theorem sqrt_four_eq_two : Real.sqrt 4 = 2 := by
  rw [show (4 : ℝ) = 2 ^ 2 by norm_num, Real.sqrt_sq (by norm_num)]

theorem mkPot_AB : mkPotential 10 ((⟨0, 0, 0⟩ : FPoint), (⟨1, 1, 1⟩ : FPoint)) =
    some ⟨⟨0, 0, 0⟩, ⟨1, 1, 1⟩, Real.sqrt 2, π / 4, π / 4 - π⟩ := by
  rw [mkPotential]
  norm_num
  exact ⟨sqrt2_lt_ten, jsAtan2_one_one, jsAtan2_neg_one_neg_one⟩

theorem mkPot_AC :
    mkPotential 10 ((⟨0, 0, 0⟩ : FPoint), (⟨2, Real.sqrt 3, 1⟩ : FPoint)) =
      some ⟨⟨0, 0, 0⟩, ⟨2, Real.sqrt 3, 1⟩, 2, π / 6, π / 6 - π⟩ := by
  rw [mkPotential]
  norm_num
  refine ⟨by rw [sqrt_four_eq_two]; norm_num, sqrt_four_eq_two,
    jsAtan2_one_sqrt3, jsAtan2_neg_one_neg_sqrt3⟩

theorem mkPot_BC :
    mkPotential 10 ((⟨1, 1, 1⟩ : FPoint), (⟨2, Real.sqrt 3, 1⟩ : FPoint)) =
      some ⟨⟨1, 1, 1⟩, ⟨2, Real.sqrt 3, 1⟩, Real.sqrt 3 - 1, 0, π⟩ := by
  rw [mkPotential]
  norm_num
  exact ⟨by linarith [sqrt3_lt_two],
    jsAtan2_zero_of_pos (by linarith [sqrt3_gt_one]),
    jsAtan2_zero_of_neg (by linarith [sqrt3_gt_one] : 1 - Real.sqrt 3 < 0)⟩

theorem pots_eval :
    potentials [⟨0, 0, 0⟩, ⟨1, 1, 1⟩, ⟨2, Real.sqrt 3, 1⟩] 10 =
      [⟨⟨0, 0, 0⟩, ⟨1, 1, 1⟩, Real.sqrt 2, π / 4, π / 4 - π⟩,
        ⟨⟨0, 0, 0⟩, ⟨2, Real.sqrt 3, 1⟩, 2, π / 6, π / 6 - π⟩,
        ⟨⟨1, 1, 1⟩, ⟨2, Real.sqrt 3, 1⟩, Real.sqrt 3 - 1, 0, π⟩] := by
  rw [potentials]
  rw [show pairsAux [(⟨0, 0, 0⟩ : FPoint), ⟨1, 1, 1⟩, ⟨2, Real.sqrt 3, 1⟩] =
      [((⟨0, 0, 0⟩ : FPoint), (⟨1, 1, 1⟩ : FPoint)),
        ((⟨0, 0, 0⟩ : FPoint), (⟨2, Real.sqrt 3, 1⟩ : FPoint)),
        ((⟨1, 1, 1⟩ : FPoint), (⟨2, Real.sqrt 3, 1⟩ : FPoint))] by
    simp [pairsAux]]
  simp only [List.filterMap_cons, List.filterMap_nil, mkPot_AB, mkPot_AC, mkPot_BC]

theorem sort_eval :
    sortByDistance
      [⟨⟨0, 0, 0⟩, ⟨1, 1, 1⟩, Real.sqrt 2, π / 4, π / 4 - π⟩,
        ⟨⟨0, 0, 0⟩, ⟨2, Real.sqrt 3, 1⟩, 2, π / 6, π / 6 - π⟩,
        ⟨⟨1, 1, 1⟩, ⟨2, Real.sqrt 3, 1⟩, Real.sqrt 3 - 1, 0, π⟩] =
      [⟨⟨1, 1, 1⟩, ⟨2, Real.sqrt 3, 1⟩, Real.sqrt 3 - 1, 0, π⟩,
        ⟨⟨0, 0, 0⟩, ⟨1, 1, 1⟩, Real.sqrt 2, π / 4, π / 4 - π⟩,
        ⟨⟨0, 0, 0⟩, ⟨2, Real.sqrt 3, 1⟩, 2, π / 6, π / 6 - π⟩] := by
  have h1 : (Real.sqrt 3 - 1 : ℝ) < 2 := by linarith [sqrt3_lt_two]
  have h2 : (Real.sqrt 3 - 1 : ℝ) < Real.sqrt 2 := by
    linarith [sqrt3_lt_two, sqrt2_gt_one]
  have h3 : ¬ ((2 : ℝ) < Real.sqrt 2) := by linarith [sqrt2_lt_two]
  simp only [sortByDistance, insertByDistance]
  rw [if_pos h1]
  simp only [insertByDistance]
  rw [if_pos h2, if_neg h3]

/-- Loop state after accepting the shortest candidate (particles 1–2) in the
C5 counterexample run. -/
def cexS1 : ConnState :=
  ⟨[⟨⟨1, 1, 1⟩, ⟨2, Real.sqrt 3, 1⟩, Real.sqrt 3 - 1⟩],
    updateFn (updateFn (fun _ => []) 1 fun l => l ++ [0]) 2 fun l => l ++ [π],
    updateFn (updateFn (fun _ _ => 0) 1 fun cnt =>
        updateFn cnt (getAngularSector 0) fun n => n + 1) 2 fun cnt =>
      updateFn cnt (getAngularSector π) fun n => n + 1⟩

/-- Loop state after additionally accepting the edge between particles 0–1. -/
def cexS2 : ConnState :=
  ⟨cexS1.connections ++ [⟨⟨0, 0, 0⟩, ⟨1, 1, 1⟩, Real.sqrt 2⟩],
    updateFn (updateFn cexS1.angles 0 fun l => l ++ [π / 4]) 1 fun l =>
      l ++ [π / 4 - π],
    updateFn (updateFn cexS1.sectors 0 fun cnt =>
        updateFn cnt (getAngularSector (π / 4)) fun n => n + 1) 1 fun cnt =>
      updateFn cnt (getAngularSector (π / 4 - π)) fun n => n + 1⟩

/-- Loop state after additionally accepting the edge between particles 0–2. -/
def cexS3 : ConnState :=
  ⟨cexS2.connections ++ [⟨⟨0, 0, 0⟩, ⟨2, Real.sqrt 3, 1⟩, 2⟩],
    updateFn (updateFn cexS2.angles 0 fun l => l ++ [π / 6]) 2 fun l =>
      l ++ [π / 6 - π],
    updateFn (updateFn cexS2.sectors 0 fun cnt =>
        updateFn cnt (getAngularSector (π / 6)) fun n => n + 1) 2 fun cnt =>
      updateFn cnt (getAngularSector (π / 6 - π)) fun n => n + 1⟩

theorem cex_step1 :
    acceptStep connInit ⟨⟨1, 1, 1⟩, ⟨2, Real.sqrt 3, 1⟩, Real.sqrt 3 - 1, 0, π⟩ =
      cexS1 := by
  rw [acceptStep_of_true connInit
    ⟨⟨1, 1, 1⟩, ⟨2, Real.sqrt 3, 1⟩, Real.sqrt 3 - 1, 0, π⟩
    (canAdd_nil 0) (canAdd_nil π)]
  rfl

theorem cex_step2 :
    acceptStep cexS1 ⟨⟨0, 0, 0⟩, ⟨1, 1, 1⟩, Real.sqrt 2, π / 4, π / 4 - π⟩ =
      cexS2 := by
  rw [acceptStep_of_true cexS1
    ⟨⟨0, 0, 0⟩, ⟨1, 1, 1⟩, Real.sqrt 2, π / 4, π / 4 - π⟩
    (canAdd_nil (π / 4)) canAdd_step2B]
  rfl

theorem cex_step3 :
    acceptStep cexS2 ⟨⟨0, 0, 0⟩, ⟨2, Real.sqrt 3, 1⟩, 2, π / 6, π / 6 - π⟩ =
      cexS3 := by
  rw [acceptStep_of_true cexS2
    ⟨⟨0, 0, 0⟩, ⟨2, Real.sqrt 3, 1⟩, 2, π / 6, π / 6 - π⟩
    canAdd_step3A canAdd_step3C]
  rfl

/-- Claim C5 counterexample: on the three particles `(0,0)`, `(1,1)` and
`(√3, 1)` with connection radius `10`, `findConnections` accepts all three
candidate edges, and the two accepted directions recorded at particle `0`
(`π/4` toward particle `1` and `π/6` toward particle `2`) are only `π/12`
apart — strictly closer than `ANGULAR_PROXIMITY_THRESHOLD = π/6`. A single
nearby accepted edge does not cause rejection (`nearbyCount <
MAX_PER_SECTOR` tolerates one), refuting the claimed mutual-separation
property. -/
theorem claim_C5_counterexample :
    (runConnections [⟨0, 0, 0⟩, ⟨1, 1, 1⟩, ⟨2, Real.sqrt 3, 1⟩] 10).angles 0 =
        [π / 4, π / 6] ∧
      angleDiffWrap (π / 4) (π / 6) < ANGULAR_PROXIMITY_THRESHOLD ∧
      degree (findConnections [⟨0, 0, 0⟩, ⟨1, 1, 1⟩, ⟨2, Real.sqrt 3, 1⟩] 10) 0 =
        2 := by
  have hfold : runConnections [⟨0, 0, 0⟩, ⟨1, 1, 1⟩, ⟨2, Real.sqrt 3, 1⟩] 10 =
      cexS3 := by
    rw [runConnections, pots_eval, sort_eval, List.foldl_cons, cex_step1,
      List.foldl_cons, cex_step2, List.foldl_cons, cex_step3, List.foldl_nil]
  refine ⟨?_, adw_pi4_pi6_close, ?_⟩
  · rw [hfold]
    simp [cexS3, cexS2, cexS1, updateFn]
  · rw [findConnections, hfold]
    simp [cexS3, cexS2, cexS1, degree, List.countP_cons]

end Floating

end Floating

noncomputable section BoidsEngine

open Real

namespace Boids

/-- `MAX_SPEED` from `boids/constants.ts`. -/
def MAX_SPEED : ℝ := 6

/-- `MIN_SPEED` from `boids/constants.ts`. -/
def MIN_SPEED : ℝ := 6

/-- `TURNING_HISTORY_LENGTH` from `boids/constants.ts`. -/
def TURNING_HISTORY_LENGTH : ℕ := 7

/-- `SPEED_SMOOTHING` from `boids/constants.ts`. -/
def SPEED_SMOOTHING : ℝ := 1

/-- `ANGLE_INTERPOLATE` from `boids/constants.ts`. -/
def ANGLE_INTERPOLATE : ℝ := 0.1

/-- `MIN_TURN_THRESHOLD` from `boids/constants.ts`: ten degrees in radians. -/
def MIN_TURN_THRESHOLD : ℝ := 10 * (π / 180)

/-- `LOOKING_ANGLE` from `boids/constants.ts`. -/
def LOOKING_ANGLE : ℝ := π * 3 / 2

/-- `COHESION_RADIUS` from `boids/constants.ts` (squared-distance bound). -/
def COHESION_RADIUS : ℝ := 30000

/-- `SEPARATION_DISTANCE` from `boids/constants.ts` (squared-distance bound). -/
def SEPARATION_DISTANCE : ℝ := 800

/-- `ALIGNMENT_RADIUS` from `boids/constants.ts` (squared-distance bound). -/
def ALIGNMENT_RADIUS : ℝ := 30000

/-- `COHESION_STRENGTH` from `boids/constants.ts`. -/
def COHESION_STRENGTH : ℝ := 0.02

/-- `SEPARATION_STRENGTH` from `boids/constants.ts`. -/
def SEPARATION_STRENGTH : ℝ := 1.0

/-- `ALIGNMENT_STRENGTH` from `boids/constants.ts`. -/
def ALIGNMENT_STRENGTH : ℝ := 1.5

/-- `MOUSE_ATTRACTION_STRENGTH` from `boids/constants.ts`. -/
def MOUSE_ATTRACTION_STRENGTH : ℝ := 0.035

/-- `MOUSE_ATTRACTION_RADIUS` from `boids/constants.ts` (squared-distance
bound). -/
def MOUSE_ATTRACTION_RADIUS : ℝ := 1005000

/-- `Boid` from `boids/types.ts`. -/
structure Boid where
  id : ℕ
  x : ℝ
  y : ℝ
  angle : ℝ
  turningHistory : List ℝ
  currentSpeed : ℝ

/-- The per-axis wrap at the top of the `updateBoids` loop body:
`if (v < 0) v += size; else if (v > size) v -= size;`. -/
def wrapCoord (v size : ℝ) : ℝ :=
  if v < 0 then v + size else if v > size then v - size else v

/-- The nearest-neighbor scan of `updateBoids`: linear pass keeping the
strictly closest other boid (by squared toroidal distance) together with its
wrapped delta; the first encountered wins ties. -/
def nearestScan (w h : ℝ) (b : Boid) (boids : List Boid) :
    Option (Boid × ℝ × ℝ × ℝ) :=
  boids.foldl
    (fun acc other =>
      if other.id = b.id then acc
      else
        let t := getTorusDistance w h b.x b.y other.x other.y
        match acc with
        | none => some (other, t.dx, t.dy, t.distanceSquared)
        | some (_, _, _, nd2) =>
          if t.distanceSquared < nd2 then some (other, t.dx, t.dy, t.distanceSquared)
          else acc)
    none

/-- The cohesion accumulation loop of `updateBoids`: sum of toroidally
adjusted positions of all other boids within `COHESION_RADIUS`, with their
count. -/
def cohesionAcc (w h : ℝ) (b : Boid) (boids : List Boid) : ℝ × ℝ × ℕ :=
  boids.foldl
    (fun acc other =>
      if other.id = b.id then acc
      else
        let t := getTorusDistance w h b.x b.y other.x other.y
        if t.distanceSquared < COHESION_RADIUS then
          (acc.1 + (b.x + t.dx), acc.2.1 + (b.y + t.dy), acc.2.2 + 1)
        else acc)
    (0, 0, 0)

/-- The steering part of the `updateBoids` loop body for one (already
wrapped) boid: cohesion, optional pointer attraction, then separation or
alignment against the nearest neighbor, returning the summed
`boidInteractionAngleDelta` together with the `hasBoidInteraction` flag. -/
def boidDelta (w h : ℝ) (mouse : Option (ℝ × ℝ)) (boids : List Boid)
    (b : Boid) : ℝ × Bool :=
  let nearest := nearestScan w h b boids
  let coh := cohesionAcc w h b boids
  let s1 : ℝ × Bool :=
    if 0 < coh.2.2 then
      let centerX := coh.1 / (coh.2.2 : ℝ)
      let centerY := coh.2.1 / (coh.2.2 : ℝ)
      let t := getTorusDistance w h b.x b.y centerX centerY
      let angleToCenter := jsAtan2 t.dy t.dx
      let angleDiff := getSmallestAngleDifference b.angle angleToCenter
      if |angleDiff| > MIN_TURN_THRESHOLD then
        (0 + angleDiff * COHESION_STRENGTH, true)
      else (0, false)
    else (0, false)
  let s2 : ℝ × Bool :=
    match mouse with
    | some m =>
      let t := getTorusDistance w h b.x b.y m.1 m.2
      if t.distanceSquared < MOUSE_ATTRACTION_RADIUS then
        let angleToMouse := jsAtan2 t.dy t.dx
        let angleDiff := getSmallestAngleDifference b.angle angleToMouse
        if |angleDiff| > MIN_TURN_THRESHOLD then
          (s1.1 + angleDiff * MOUSE_ATTRACTION_STRENGTH, true)
        else s1
      else s1
    | none => s1
  match nearest with
  | some n =>
    let posAngle := getSmallestAngleDifference b.angle (jsAtan2 n.2.2.1 n.2.1)
    if |posAngle| < LOOKING_ANGLE then
      if n.2.2.2 < SEPARATION_DISTANCE then
        if |posAngle| > MIN_TURN_THRESHOLD then
          if 0 < posAngle then (s2.1 + -ANGLE_INTERPOLATE * SEPARATION_STRENGTH, true)
          else if posAngle < 0 then
            (s2.1 + ANGLE_INTERPOLATE * SEPARATION_STRENGTH, true)
          else s2
        else s2
      else if n.2.2.2 < ALIGNMENT_RADIUS then
        let dtheta := getSmallestAngleDifference b.angle n.1.angle
        if |dtheta| > MIN_TURN_THRESHOLD then
          if 0 < dtheta then (s2.1 + ANGLE_INTERPOLATE * ALIGNMENT_STRENGTH, true)
          else if dtheta < 0 then
            (s2.1 + -ANGLE_INTERPOLATE * ALIGNMENT_STRENGTH, true)
          else s2
        else s2
      else s2
    else s2
  | none => s2

/-- `turningHistory.push(delta)` followed by the bounded-length `shift()`. -/
def pushHistory (hist : List ℝ) (delta : ℝ) : List ℝ :=
  let pushed := hist ++ [delta]
  if TURNING_HISTORY_LENGTH < pushed.length then pushed.drop 1 else pushed

/-- The target-speed computation of `updateBoids`: once the history holds at
least 3 samples, slow down linearly with the mean absolute turn when all
recent turns share a sign and exceed the noise floor. -/
def targetSpeedOf (hist : List ℝ) : ℝ :=
  if 3 ≤ hist.length then
    let recentTurns := hist.drop (hist.length - TURNING_HISTORY_LENGTH)
    let avgAbsTurn := (recentTurns.map fun t => |t|).sum / (recentTurns.length : ℝ)
    let allSameSign :=
      (∀ t ∈ recentTurns, 0 ≤ t) ∨ (∀ t ∈ recentTurns, t ≤ 0)
    if allSameSign ∧ avgAbsTurn > 0.02 then
      let turnIntensity := min (avgAbsTurn / 0.15) 1
      MAX_SPEED - (MAX_SPEED - MIN_SPEED) * turnIntensity
    else MAX_SPEED
  else MAX_SPEED

/-- One full `updateBoids` loop-body execution for one boid (given the
current array state), returning the updated boid and the frame's angular
delta. -/
def stepBoidDelta (w h : ℝ) (mouse : Option (ℝ × ℝ)) (boids : List Boid)
    (b : Boid) : Boid × ℝ :=
  let bw : Boid :=
    ⟨b.id, wrapCoord b.x w, wrapCoord b.y h, b.angle, b.turningHistory,
      b.currentSpeed⟩
  let df := boidDelta w h mouse boids bw
  let newAngle := if df.2 then normalizeAngle (bw.angle + df.1) else bw.angle
  let hist := pushHistory bw.turningHistory df.1
  let targetSpeed := targetSpeedOf hist
  let speed := bw.currentSpeed + (targetSpeed - bw.currentSpeed) * SPEED_SMOOTHING
  (⟨bw.id, bw.x + Real.cos newAngle * speed, bw.y + Real.sin newAngle * speed,
    newAngle, hist, speed⟩, df.1)

/-- The sequential in-place `boids.forEach` of `updateBoids`: boid `i` sees
already-updated earlier boids, and each boid's angular delta is recorded in
iteration order. -/
def updateBoidsAux (w h : ℝ) (mouse : Option (ℝ × ℝ)) :
    List Boid → List Boid → List Boid × List ℝ
  | done, [] => (done, [])
  | done, b :: pending =>
    let r := stepBoidDelta w h mouse (done ++ b :: pending) b
    let rest := updateBoidsAux w h mouse (done ++ [r.1]) pending
    (rest.1, r.2 :: rest.2)

/-- `updateBoids` (one frame, unpaused), also returning the per-boid angular
deltas in iteration order. -/
def updateBoidsWithDeltas (w h : ℝ) (mouse : Option (ℝ × ℝ))
    (boids : List Boid) : List Boid × List ℝ :=
  updateBoidsAux w h mouse [] boids

/-- `updateBoids` (one frame, unpaused). -/
def updateBoids (w h : ℝ) (mouse : Option (ℝ × ℝ)) (boids : List Boid) :
    List Boid :=
  (updateBoidsWithDeltas w h mouse boids).1

/-- `n` consecutive unpaused frames. -/
def iterateBoids (w h : ℝ) (mouse : Option (ℝ × ℝ)) :
    ℕ → List Boid → List Boid
  | 0, bs => bs
  | n + 1, bs => iterateBoids w h mouse n (updateBoids w h mouse bs)

/-- With the final tuning `MAX_SPEED = MIN_SPEED = 6`, the target-speed
computation returns `MAX_SPEED` on every branch. -/
theorem targetSpeedOf_eq (hist : List ℝ) : targetSpeedOf hist = MAX_SPEED := by
  simp [targetSpeedOf, MAX_SPEED, MIN_SPEED]

theorem wrapCoord_of_mem {v size : ℝ} (h0 : 0 ≤ v) (h1 : v ≤ size) :
    wrapCoord v size = v := by
  rw [wrapCoord, if_neg (not_lt.mpr h0), if_neg (not_lt.mpr h1)]

theorem wrapCoord_bounds {v size s : ℝ} (hs : s ≤ size) (h0 : -s ≤ v)
    (h1 : v ≤ size + s) : 0 ≤ wrapCoord v size ∧ wrapCoord v size ≤ size := by
  rw [wrapCoord]
  split_ifs with hv1 hv2
  · constructor <;> linarith
  · constructor <;> linarith
  · push_neg at hv1 hv2
    exact ⟨hv1, hv2⟩

theorem stepBoidDelta_speed (w h : ℝ) (mouse : Option (ℝ × ℝ))
    (boids : List Boid) (b : Boid) :
    (stepBoidDelta w h mouse boids b).1.currentSpeed = MAX_SPEED := by
  rw [stepBoidDelta]
  dsimp only
  rw [targetSpeedOf_eq, SPEED_SMOOTHING]
  ring

theorem stepBoidDelta_x_bounds {w : ℝ} (h : ℝ) (mouse : Option (ℝ × ℝ))
    (boids : List Boid) (b : Boid) (hw : MAX_SPEED ≤ w)
    (hx0 : -MAX_SPEED ≤ b.x) (hx1 : b.x ≤ w + MAX_SPEED) :
    -MAX_SPEED ≤ (stepBoidDelta w h mouse boids b).1.x ∧
      (stepBoidDelta w h mouse boids b).1.x ≤ w + MAX_SPEED := by
  obtain ⟨hw0, hw1⟩ := wrapCoord_bounds hw hx0 hx1
  rw [stepBoidDelta]
  dsimp only
  rw [targetSpeedOf_eq, SPEED_SMOOTHING]
  have hsp : b.currentSpeed + (MAX_SPEED - b.currentSpeed) * 1 = MAX_SPEED := by
    ring
  rw [hsp]
  have hM : (0 : ℝ) ≤ MAX_SPEED := by norm_num [MAX_SPEED]
  set θ := if (boidDelta w h mouse boids
      ⟨b.id, wrapCoord b.x w, wrapCoord b.y h, b.angle, b.turningHistory,
        b.currentSpeed⟩).2 = true then
      normalizeAngle
        (b.angle + (boidDelta w h mouse boids
          ⟨b.id, wrapCoord b.x w, wrapCoord b.y h, b.angle, b.turningHistory,
            b.currentSpeed⟩).1)
    else b.angle with hθ
  have hc1 := Real.neg_one_le_cos θ
  have hc2 := Real.cos_le_one θ
  constructor <;> nlinarith

theorem stepBoidDelta_y_bounds (w : ℝ) {h : ℝ} (mouse : Option (ℝ × ℝ))
    (boids : List Boid) (b : Boid) (hh : MAX_SPEED ≤ h)
    (hy0 : -MAX_SPEED ≤ b.y) (hy1 : b.y ≤ h + MAX_SPEED) :
    -MAX_SPEED ≤ (stepBoidDelta w h mouse boids b).1.y ∧
      (stepBoidDelta w h mouse boids b).1.y ≤ h + MAX_SPEED := by
  obtain ⟨hw0, hw1⟩ := wrapCoord_bounds hh hy0 hy1
  rw [stepBoidDelta]
  dsimp only
  rw [targetSpeedOf_eq, SPEED_SMOOTHING]
  have hsp : b.currentSpeed + (MAX_SPEED - b.currentSpeed) * 1 = MAX_SPEED := by
    ring
  rw [hsp]
  have hM : (0 : ℝ) ≤ MAX_SPEED := by norm_num [MAX_SPEED]
  set θ := if (boidDelta w h mouse boids
      ⟨b.id, wrapCoord b.x w, wrapCoord b.y h, b.angle, b.turningHistory,
        b.currentSpeed⟩).2 = true then
      normalizeAngle
        (b.angle + (boidDelta w h mouse boids
          ⟨b.id, wrapCoord b.x w, wrapCoord b.y h, b.angle, b.turningHistory,
            b.currentSpeed⟩).1)
    else b.angle with hθ
  have hc1 := Real.neg_one_le_sin θ
  have hc2 := Real.sin_le_one θ
  constructor <;> nlinarith

/-- Positions stay within `MAX_SPEED` of the canvas on every axis. -/
def inBounds (w h : ℝ) (b : Boid) : Prop :=
  -MAX_SPEED ≤ b.x ∧ b.x ≤ w + MAX_SPEED ∧ -MAX_SPEED ≤ b.y ∧
    b.y ≤ h + MAX_SPEED

theorem updateBoidsAux_env {w h : ℝ} {mouse : Option (ℝ × ℝ)}
    (hw : MAX_SPEED ≤ w) (hh : MAX_SPEED ≤ h) :
    ∀ pending done : List Boid, (∀ b ∈ done, inBounds w h b) →
      (∀ b ∈ pending, inBounds w h b) →
      ∀ b' ∈ (updateBoidsAux w h mouse done pending).1, inBounds w h b' := by
  intro pending
  induction pending with
  | nil =>
    intro done hdone _ b' hb'
    rw [updateBoidsAux] at hb'
    exact hdone b' hb'
  | cons b rest ih =>
    intro done hdone hpend b' hb'
    rw [updateBoidsAux] at hb'
    dsimp only at hb'
    have hb := hpend b (List.mem_cons_self _ _)
    have hstep : inBounds w h
        (stepBoidDelta w h mouse (done ++ b :: rest) b).1 := by
      have hx := stepBoidDelta_x_bounds h mouse (done ++ b :: rest) b
        hw hb.1 hb.2.1
      have hy := stepBoidDelta_y_bounds w mouse (done ++ b :: rest) b
        hh hb.2.2.1 hb.2.2.2
      exact ⟨hx.1, hx.2, hy.1, hy.2⟩
    refine ih (done ++ [(stepBoidDelta w h mouse (done ++ b :: rest) b).1])
      ?_ (fun q hq => hpend q (List.mem_cons_of_mem _ hq)) b' hb'
    intro q hq
    rcases List.mem_append.mp hq with hq | hq
    · exact hdone q hq
    · rw [List.mem_singleton.mp hq]
      exact hstep

/-- Claim C1 (amended): if the canvas is at least `MAX_SPEED` on each side
and every boid starts within `MAX_SPEED` of the canvas, then after any
number of update steps every boid's position stays within
`[-MAX_SPEED, width + MAX_SPEED] × [-MAX_SPEED, height + MAX_SPEED]` (the
wrap sub-step restores `[0, width] × [0, height]` at the start of each
frame, and the subsequent advance can overshoot by at most one step
length; the claimed strict containment in `[0, width) × [0, height)`
immediately after an update is false). -/
theorem claim_C1_amended (w h : ℝ) (mouse : Option (ℝ × ℝ))
    (hw : MAX_SPEED ≤ w) (hh : MAX_SPEED ≤ h) (boids : List Boid)
    (hb : ∀ b ∈ boids, inBounds w h b) (n : ℕ) :
    ∀ b' ∈ iterateBoids w h mouse n boids, inBounds w h b' := by
  induction n generalizing boids with
  | zero => exact hb
  | succ n ih =>
    rw [iterateBoids]
    refine ih _ ?_
    intro b' hb'
    exact updateBoidsAux_env hw hh boids [] (by simp) hb b' hb'

theorem updateBoidsAux_speed {w h : ℝ} {mouse : Option (ℝ × ℝ)} :
    ∀ pending done : List Boid, (∀ b ∈ done, b.currentSpeed = MAX_SPEED) →
      ∀ b' ∈ (updateBoidsAux w h mouse done pending).1,
        b'.currentSpeed = MAX_SPEED := by
  intro pending
  induction pending with
  | nil =>
    intro done hdone b' hb'
    rw [updateBoidsAux] at hb'
    exact hdone b' hb'
  | cons b rest ih =>
    intro done hdone b' hb'
    rw [updateBoidsAux] at hb'
    dsimp only at hb'
    refine ih (done ++ [(stepBoidDelta w h mouse (done ++ b :: rest) b).1])
      ?_ b' hb'
    intro q hq
    rcases List.mem_append.mp hq with hq | hq
    · exact hdone q hq
    · rw [List.mem_singleton.mp hq]
      exact stepBoidDelta_speed w h mouse (done ++ b :: rest) b

/-- Claim C10: under the final constants (`MAX_SPEED = MIN_SPEED = 6`,
`SPEED_SMOOTHING = 1`) the speed-modulation step is inert — after every
update step every boid's `currentSpeed` equals `MAX_SPEED`, whatever its
turning history holds. -/
theorem claim_C10 (w h : ℝ) (mouse : Option (ℝ × ℝ)) (boids : List Boid) :
    ∀ b' ∈ updateBoids w h mouse boids, b'.currentSpeed = MAX_SPEED := by
  intro b' hb'
  exact updateBoidsAux_speed boids [] (by simp) b' hb'

/-- Evaluation of one frame on a single in-bounds boid: no neighbor and no
pointer means no steering, so the boid keeps its heading and advances by
`MAX_SPEED` along it. -/
theorem singleBoid_eval (w h x y θ c : ℝ) (hist : List ℝ)
    (hx : wrapCoord x w = x) (hy : wrapCoord y h = y) :
    updateBoidsWithDeltas w h none [⟨0, x, y, θ, hist, c⟩] =
      ([⟨0, x + Real.cos θ * MAX_SPEED, y + Real.sin θ * MAX_SPEED, θ,
        pushHistory hist 0, MAX_SPEED⟩], [0]) := by
  have hd : boidDelta w h none [⟨0, x, y, θ, hist, c⟩] ⟨0, x, y, θ, hist, c⟩ =
      (0, false) := rfl
  have hsp : c + (MAX_SPEED - c) * 1 = MAX_SPEED := by ring
  rw [updateBoidsWithDeltas, updateBoidsAux, updateBoidsAux]
  simp only [List.nil_append]
  rw [stepBoidDelta]
  dsimp only
  rw [hx, hy, hd]
  rw [targetSpeedOf_eq, SPEED_SMOOTHING, hsp]
  simp

/-- Claim C1 counterexample: on a `10 × 10` canvas, a single boid at
`(5, 5)` heading right (`angle = 0`) ends one update at `x = 11 > width`:
the advance happens after the wrap sub-step, so positions are outside
`[0, width) × [0, height)` right after an update (they are wrapped back only
at the start of the next frame). -/
theorem claim_C1_counterexample :
    updateBoids 10 10 none [⟨0, 5, 5, 0, [], 3⟩] = [⟨0, 11, 5, 0, [0], 6⟩] ∧
      ¬ ((11 : ℝ) < 10) := by
  constructor
  · rw [updateBoids, singleBoid_eval 10 10 5 5 0 3 []
      (wrapCoord_of_mem (by norm_num) (by norm_num))
      (wrapCoord_of_mem (by norm_num) (by norm_num))]
    rw [Real.cos_zero, Real.sin_zero]
    norm_num [MAX_SPEED]
    rfl
  · norm_num

theorem gsad_self (a : ℝ) : getSmallestAngleDifference a a = 0 := by
  rw [getSmallestAngleDifference]
  simp only [sub_self, zero_add, zero_sub, abs_zero, abs_neg]
  rw [if_pos ⟨abs_nonneg _, abs_nonneg _⟩]

theorem getTorusDistance_of_small {w h x1 y1 x2 y2 : ℝ}
    (h1 : ¬ |x2 - x1| > w / 2) (h2 : ¬ |y2 - y1| > h / 2) :
    getTorusDistance w h x1 y1 x2 y2 =
      ⟨x2 - x1, y2 - y1, (x2 - x1) * (x2 - x1) + (y2 - y1) * (y2 - y1)⟩ := by
  rw [getTorusDistance]
  rw [torusWrap, if_neg h1, torusWrap, if_neg h2]

theorem nearestScan_pair_skip_first {w h : ℝ} {b b1 b2 : Boid}
    (h1 : b1.id = b.id) (h2 : ¬ b2.id = b.id) :
    nearestScan w h b [b1, b2] =
      some (b2, (getTorusDistance w h b.x b.y b2.x b2.y).dx,
        (getTorusDistance w h b.x b.y b2.x b2.y).dy,
        (getTorusDistance w h b.x b.y b2.x b2.y).distanceSquared) := by
  rw [nearestScan, List.foldl_cons, List.foldl_cons, List.foldl_nil]
  dsimp only
  rw [if_pos h1, if_neg h2]

theorem nearestScan_pair_skip_second {w h : ℝ} {b b1 b2 : Boid}
    (h1 : ¬ b1.id = b.id) (h2 : b2.id = b.id) :
    nearestScan w h b [b1, b2] =
      some (b1, (getTorusDistance w h b.x b.y b1.x b1.y).dx,
        (getTorusDistance w h b.x b.y b1.x b1.y).dy,
        (getTorusDistance w h b.x b.y b1.x b1.y).distanceSquared) := by
  rw [nearestScan, List.foldl_cons, List.foldl_cons, List.foldl_nil]
  dsimp only
  rw [if_neg h1, if_pos h2]

theorem cohesionAcc_pair_skip_first {w h : ℝ} {b b1 b2 : Boid}
    (h1 : b1.id = b.id) (h2 : ¬ b2.id = b.id)
    (hrad : (getTorusDistance w h b.x b.y b2.x b2.y).distanceSquared <
      COHESION_RADIUS) :
    cohesionAcc w h b [b1, b2] =
      (b.x + (getTorusDistance w h b.x b.y b2.x b2.y).dx,
        b.y + (getTorusDistance w h b.x b.y b2.x b2.y).dy, 1) := by
  rw [cohesionAcc, List.foldl_cons, List.foldl_cons, List.foldl_nil]
  dsimp only
  rw [if_pos h1, if_neg h2, if_pos hrad]
  norm_num

theorem cohesionAcc_pair_skip_second {w h : ℝ} {b b1 b2 : Boid}
    (h1 : ¬ b1.id = b.id) (h2 : b2.id = b.id)
    (hrad : (getTorusDistance w h b.x b.y b1.x b1.y).distanceSquared <
      COHESION_RADIUS) :
    cohesionAcc w h b [b1, b2] =
      (b.x + (getTorusDistance w h b.x b.y b1.x b1.y).dx,
        b.y + (getTorusDistance w h b.x b.y b1.x b1.y).dy, 1) := by
  rw [cohesionAcc, List.foldl_cons, List.foldl_cons, List.foldl_nil]
  dsimp only
  rw [if_neg h1, if_pos h2, if_pos hrad]
  norm_num

/-- If a boid's single effective neighbor lies exactly in the direction of
its own heading (head-on bearing), every steering term falls below
`MIN_TURN_THRESHOLD` and the frame delta is zero with no interaction. -/
theorem boidDelta_aligned {w h : ℝ} {boids : List Boid} {b nb : Boid}
    {dx dy dsq : ℝ}
    (hnear : nearestScan w h b boids = some (nb, dx, dy, dsq))
    (hcoh : cohesionAcc w h b boids = (b.x + dx, b.y + dy, 1))
    (hre : getTorusDistance w h b.x b.y (b.x + dx) (b.y + dy) = ⟨dx, dy, dsq⟩)
    (hang : jsAtan2 dy dx = b.angle) (hsep : dsq < SEPARATION_DISTANCE) :
    boidDelta w h none boids b = (0, false) := by
  have hπ := pi_pos
  have hthr : ¬ |(0 : ℝ)| > MIN_TURN_THRESHOLD := by
    rw [abs_zero, MIN_TURN_THRESHOLD]
    push_neg
    positivity
  rw [boidDelta, hnear, hcoh]
  dsimp only
  rw [if_pos (by norm_num : (0 : ℕ) < 1), Nat.cast_one, div_one, div_one, hre]
  dsimp only
  rw [hang, gsad_self, if_neg hthr]
  rw [if_pos (by rw [abs_zero, LOOKING_ANGLE]; positivity :
      |(0 : ℝ)| < LOOKING_ANGLE), if_pos hsep, if_neg hthr]

/-- Evaluation of one `updateBoids` loop-body on an in-bounds boid whose
frame delta is zero with no interaction. -/
theorem stepBoidDelta_no_turn (w h : ℝ) (mouse : Option (ℝ × ℝ))
    (boids : List Boid) (bid : ℕ) (x0 y0 a0 c0 : ℝ) (hist0 : List ℝ)
    (hwx : wrapCoord x0 w = x0) (hwy : wrapCoord y0 h = y0)
    (hdelta : boidDelta w h mouse boids ⟨bid, x0, y0, a0, hist0, c0⟩ =
      (0, false)) :
    stepBoidDelta w h mouse boids ⟨bid, x0, y0, a0, hist0, c0⟩ =
      (⟨bid, x0 + Real.cos a0 * MAX_SPEED, y0 + Real.sin a0 * MAX_SPEED, a0,
        pushHistory hist0 0, MAX_SPEED⟩, 0) := by
  have hsp : c0 + (MAX_SPEED - c0) * 1 = MAX_SPEED := by ring
  rw [stepBoidDelta]
  dsimp only
  rw [hwx, hwy, hdelta]
  rw [targetSpeedOf_eq, SPEED_SMOOTHING, hsp]
  simp

/-- Two boids on a horizontal line, within separation range, headings
pointed directly at one another (`0` and `π`), pointer inactive: after one
update both angular deltas are zero. -/
theorem twoBoidHeadOn (w h y x1 x2 c1 c2 : ℝ) (hist1 hist2 : List ℝ)
    (hx1 : 0 ≤ x1) (hx2 : x2 ≤ w) (hd6 : 6 < x2 - x1) (hdw : x2 - x1 ≤ w / 2)
    (hsep : (x2 - x1) * (x2 - x1) < SEPARATION_DISTANCE)
    (hy0 : 0 ≤ y) (hyh : y ≤ h) :
    (updateBoidsWithDeltas w h none
      [⟨0, x1, y, 0, hist1, c1⟩, ⟨1, x2, y, π, hist2, c2⟩]).2 = [0, 0] := by
  have hsep800 : (x2 - x1) * (x2 - x1) < 800 := by
    rw [SEPARATION_DISTANCE] at hsep
    exact hsep
  have hh0 : 0 ≤ h := le_trans hy0 hyh
  have hx1w : x1 ≤ w := by linarith
  have hx20 : 0 ≤ x2 := by linarith
  have t1 : getTorusDistance w h x1 y x2 y =
      ⟨x2 - x1, 0, (x2 - x1) * (x2 - x1)⟩ := by
    rw [getTorusDistance_of_small
      (by rw [abs_of_nonneg (by linarith : (0:ℝ) ≤ x2 - x1)]; push_neg; linarith)
      (by rw [sub_self, abs_zero]; push_neg; linarith)]
    simp
  have hd1 : boidDelta w h none
      [⟨0, x1, y, 0, hist1, c1⟩, ⟨1, x2, y, π, hist2, c2⟩]
      ⟨0, x1, y, 0, hist1, c1⟩ = (0, false) := by
    have hnear : nearestScan w h (⟨0, x1, y, 0, hist1, c1⟩ : Boid)
        [⟨0, x1, y, 0, hist1, c1⟩, ⟨1, x2, y, π, hist2, c2⟩] =
        some (⟨1, x2, y, π, hist2, c2⟩, x2 - x1, 0, (x2 - x1) * (x2 - x1)) := by
      rw [nearestScan_pair_skip_first rfl (by simp)]
      dsimp only
      rw [t1]
    have hcoh : cohesionAcc w h (⟨0, x1, y, 0, hist1, c1⟩ : Boid)
        [⟨0, x1, y, 0, hist1, c1⟩, ⟨1, x2, y, π, hist2, c2⟩] =
        (x1 + (x2 - x1), y + 0, 1) := by
      rw [cohesionAcc_pair_skip_first rfl (by simp)
        (by dsimp only; rw [t1, COHESION_RADIUS]; dsimp only; nlinarith)]
      dsimp only
      rw [t1]
    have hre : getTorusDistance w h x1 y (x1 + (x2 - x1)) (y + 0) =
        ⟨x2 - x1, 0, (x2 - x1) * (x2 - x1)⟩ := by
      rw [show x1 + (x2 - x1) = x2 by ring, add_zero, t1]
    exact boidDelta_aligned hnear hcoh hre
      (Floating.jsAtan2_zero_of_pos (by linarith)) (by rw [SEPARATION_DISTANCE]; nlinarith)
  have hr1 : stepBoidDelta w h none
      [⟨0, x1, y, 0, hist1, c1⟩, ⟨1, x2, y, π, hist2, c2⟩]
      ⟨0, x1, y, 0, hist1, c1⟩ =
      (⟨0, x1 + 6, y, 0, pushHistory hist1 0, 6⟩, 0) := by
    rw [stepBoidDelta_no_turn w h none _ 0 x1 y 0 c1 hist1
      (wrapCoord_of_mem hx1 hx1w) (wrapCoord_of_mem hy0 hyh) hd1]
    rw [Real.cos_zero, Real.sin_zero, MAX_SPEED]
    norm_num
  have t2 : getTorusDistance w h x2 y (x1 + 6) y =
      ⟨x1 + 6 - x2, 0, (x1 + 6 - x2) * (x1 + 6 - x2)⟩ := by
    rw [getTorusDistance_of_small
      (by rw [abs_of_nonpos (by linarith : x1 + 6 - x2 ≤ 0)]; push_neg; linarith)
      (by rw [sub_self, abs_zero]; push_neg; linarith)]
    simp
  have hd2 : boidDelta w h none
      [⟨0, x1 + 6, y, 0, pushHistory hist1 0, 6⟩, ⟨1, x2, y, π, hist2, c2⟩]
      ⟨1, x2, y, π, hist2, c2⟩ = (0, false) := by
    have hnear : nearestScan w h (⟨1, x2, y, π, hist2, c2⟩ : Boid)
        [⟨0, x1 + 6, y, 0, pushHistory hist1 0, 6⟩, ⟨1, x2, y, π, hist2, c2⟩] =
        some (⟨0, x1 + 6, y, 0, pushHistory hist1 0, 6⟩, x1 + 6 - x2, 0,
          (x1 + 6 - x2) * (x1 + 6 - x2)) := by
      rw [nearestScan_pair_skip_second (by simp) rfl]
      dsimp only
      rw [t2]
    have hcoh : cohesionAcc w h (⟨1, x2, y, π, hist2, c2⟩ : Boid)
        [⟨0, x1 + 6, y, 0, pushHistory hist1 0, 6⟩, ⟨1, x2, y, π, hist2, c2⟩] =
        (x2 + (x1 + 6 - x2), y + 0, 1) := by
      rw [cohesionAcc_pair_skip_second (by simp) rfl
        (by dsimp only; rw [t2, COHESION_RADIUS]; dsimp only; nlinarith)]
      dsimp only
      rw [t2]
    have hre : getTorusDistance w h x2 y (x2 + (x1 + 6 - x2)) (y + 0) =
        ⟨x1 + 6 - x2, 0, (x1 + 6 - x2) * (x1 + 6 - x2)⟩ := by
      rw [show x2 + (x1 + 6 - x2) = x1 + 6 by ring, add_zero, t2]
    exact boidDelta_aligned hnear hcoh hre
      (Floating.jsAtan2_zero_of_neg (by linarith)) (by rw [SEPARATION_DISTANCE]; nlinarith)
  rw [updateBoidsWithDeltas, updateBoidsAux]
  dsimp only
  rw [List.nil_append, hr1]
  rw [updateBoidsAux]
  dsimp only
  rw [List.nil_append, List.singleton_append]
  rw [show (stepBoidDelta w h none
      [⟨0, x1 + 6, y, 0, pushHistory hist1 0, 6⟩, ⟨1, x2, y, π, hist2, c2⟩]
      ⟨1, x2, y, π, hist2, c2⟩).2 = (0 : ℝ) from by
    rw [stepBoidDelta]
    dsimp only
    rw [wrapCoord_of_mem hx20 hx2, wrapCoord_of_mem hy0 hyh, hd2]]
  rw [updateBoidsAux]

/-- Claim C7 (amended): two boids within `SEPARATION_DISTANCE` with headings
pointed directly at one another (formalized for the axis-aligned head-on
family: heading `0` facing heading `π` along a horizontal line, pointer
inactive) receive an angular delta of exactly zero each — the head-on
bearing difference is `0`, below `MIN_TURN_THRESHOLD`, so neither
separation nor cohesion fires and the boids pass through each other instead
of turning apart. -/
theorem claim_C7_amended (w h y x1 x2 c1 c2 : ℝ) (hist1 hist2 : List ℝ)
    (hx1 : 0 ≤ x1) (hx2 : x2 ≤ w) (hd6 : 6 < x2 - x1) (hdw : x2 - x1 ≤ w / 2)
    (hsep : (x2 - x1) * (x2 - x1) < SEPARATION_DISTANCE)
    (hy0 : 0 ≤ y) (hyh : y ≤ h) :
    (updateBoidsWithDeltas w h none
      [⟨0, x1, y, 0, hist1, c1⟩, ⟨1, x2, y, π, hist2, c2⟩]).2 = [0, 0] :=
  twoBoidHeadOn w h y x1 x2 c1 c2 hist1 hist2 hx1 hx2 hd6 hdw hsep hy0 hyh

/-- Witness for the amended C7 on a `200 × 200` canvas. -/
theorem claim_C7_amended_witness :
    ((0 : ℝ) ≤ 50 ∧ (70 : ℝ) ≤ 200 ∧ (6 : ℝ) < 70 - 50 ∧
        (70 : ℝ) - 50 ≤ 200 / 2 ∧
        ((70 : ℝ) - 50) * ((70 : ℝ) - 50) < SEPARATION_DISTANCE ∧
        (0 : ℝ) ≤ 60 ∧ (60 : ℝ) ≤ 200) ∧
      (updateBoidsWithDeltas 200 200 none
        [⟨0, 50, 60, 0, [], 6⟩, ⟨1, 70, 60, π, [], 6⟩]).2 = [0, 0] :=
  ⟨⟨by norm_num, by norm_num, by norm_num, by norm_num,
      by norm_num [SEPARATION_DISTANCE], by norm_num, by norm_num⟩,
    claim_C7_amended 200 200 60 50 70 6 6 [] [] (by norm_num) (by norm_num)
      (by norm_num) (by norm_num) (by norm_num [SEPARATION_DISTANCE])
      (by norm_num) (by norm_num)⟩

/-- Claim C7 counterexample: boids at `(40, 50)` and `(60, 50)` on a
`100 × 100` canvas (squared distance `400 < SEPARATION_DISTANCE`), headings
`0` and `π` pointing directly at each other, pointer inactive — after one
update the two angular deltas are `[0, 0]`: neither is non-zero, refuting
the claimed opposite-sign non-zero deltas. -/
theorem claim_C7_counterexample :
    (getTorusDistance 100 100 40 50 60 50).distanceSquared <
        SEPARATION_DISTANCE ∧
      jsAtan2 ((50 : ℝ) - 50) (60 - 40) = 0 ∧
      jsAtan2 ((50 : ℝ) - 50) (40 - 60) = π ∧
      (updateBoidsWithDeltas 100 100 none
        [⟨0, 40, 50, 0, [], 6⟩, ⟨1, 60, 50, π, [], 6⟩]).2 = [0, 0] := by
  refine ⟨?_, ?_, ?_, ?_⟩
  · rw [getTorusDistance_of_small (by norm_num) (by norm_num)]
    norm_num [SEPARATION_DISTANCE]
  · rw [show (50 : ℝ) - 50 = 0 by norm_num, show (60 : ℝ) - 40 = 20 by norm_num]
    exact Floating.jsAtan2_zero_of_pos (by norm_num)
  · rw [show (50 : ℝ) - 50 = 0 by norm_num, show (40 : ℝ) - 60 = -20 by norm_num]
    exact Floating.jsAtan2_zero_of_neg (by norm_num)
  · exact twoBoidHeadOn 100 100 50 40 60 6 6 [] [] (by norm_num) (by norm_num)
      (by norm_num) (by norm_num) (by norm_num [SEPARATION_DISTANCE])
      (by norm_num) (by norm_num)

/-- Witness for C10: a single boid with `currentSpeed = 2` ends the frame at
`MAX_SPEED`. -/
theorem claim_C10_witness :
    (⟨0, 15, 9, 0, [0], 6⟩ : Boid) ∈
        updateBoids 30 30 none [⟨0, 9, 9, 0, [], 2⟩] ∧
      (⟨0, 15, 9, 0, [0], 6⟩ : Boid).currentSpeed = MAX_SPEED := by
  have hlist : updateBoids 30 30 none [⟨0, 9, 9, 0, [], 2⟩] =
      [⟨0, 15, 9, 0, [0], 6⟩] := by
    rw [updateBoids, singleBoid_eval 30 30 9 9 0 2 []
      (wrapCoord_of_mem (by norm_num) (by norm_num))
      (wrapCoord_of_mem (by norm_num) (by norm_num))]
    rw [Real.cos_zero, Real.sin_zero]
    norm_num [MAX_SPEED]
    rfl
  have hmem : (⟨0, 15, 9, 0, [0], 6⟩ : Boid) ∈
      updateBoids 30 30 none [⟨0, 9, 9, 0, [], 2⟩] := by
    rw [hlist]
    exact List.mem_singleton.mpr rfl
  exact ⟨hmem, claim_C10 30 30 none [⟨0, 9, 9, 0, [], 2⟩] _ hmem⟩

/-- Witness for the amended C1 on a `20 × 20` canvas after one step. -/
theorem claim_C1_amended_witness :
    (MAX_SPEED ≤ (20 : ℝ) ∧ inBounds 20 20 ⟨0, 7, 8, 0, [], 6⟩) ∧
      inBounds 20 20 ⟨0, 13, 8, 0, [0], 6⟩ := by
  have hb : inBounds 20 20 (⟨0, 7, 8, 0, [], 6⟩ : Boid) := by
    constructor
    · norm_num [MAX_SPEED]
    refine ⟨?_, ?_, ?_⟩ <;> norm_num [MAX_SPEED]
  have hlist : updateBoids 20 20 none [⟨0, 7, 8, 0, [], 6⟩] =
      [⟨0, 13, 8, 0, [0], 6⟩] := by
    rw [updateBoids, singleBoid_eval 20 20 7 8 0 6 []
      (wrapCoord_of_mem (by norm_num) (by norm_num))
      (wrapCoord_of_mem (by norm_num) (by norm_num))]
    rw [Real.cos_zero, Real.sin_zero]
    norm_num [MAX_SPEED]
    rfl
  have hmem : (⟨0, 13, 8, 0, [0], 6⟩ : Boid) ∈
      iterateBoids 20 20 none 1 [⟨0, 7, 8, 0, [], 6⟩] := by
    rw [iterateBoids, iterateBoids, hlist]
    exact List.mem_singleton.mpr rfl
  refine ⟨⟨by norm_num [MAX_SPEED], hb⟩, ?_⟩
  exact claim_C1_amended 20 20 none (by norm_num [MAX_SPEED])
    (by norm_num [MAX_SPEED]) [⟨0, 7, 8, 0, [], 6⟩]
    (by intro b hb'; rw [List.mem_singleton.mp hb']; exact hb) 1 _ hmem

end Boids

end BoidsEngine

end Portfolio
